import Mathlib

/-!
Shallow embedding of the resumable issue-processing pipeline of
claude-code-dispatcher.

Embedded source files:
* `src/services/resumable-issue-processor.ts` (`ResumableIssueProcessor`)
* `src/services/processing-state-manager.ts` (`ProcessingStateManager`)
* `src/services/issue-queue.ts` (`IssueQueue`)
* `src/infrastructure` git repository (`generateBranchName`, `switchToBranch`,
  `checkForChanges`, `discardChanges`, `deleteBranch`)
* `src/utils/logger.ts` (`RetryHandler.withRetry`)
* `src/clients` Claude executor (`execute`, raising `RateLimitError`)

Modelling conventions:
* The persistent state directory is a map from issue id to a stored record;
  a record is either a parsable `ProcessingState` or unparsable (`corrupt`).
  The `lastUpdated` timestamp is metadata that no control flow reads; it is
  omitted from the embedded state.
* External collaborators (git, Claude executor) are driven by finite scripts
  of outcomes carried in the environment; every collaborator invocation is
  recorded in a trace so that theorems can count invocations.
* Prompt strings are abstracted to their kind plus the data they are built
  from (`PromptBuilder` is a pure function of issue/branch data).
* JS exceptions are modelled with `Except`; since a JS `throw` does not roll
  back prior mutations, the environment and the in-memory state are returned
  alongside the error.
-/

namespace Dispatcher

/-- ProcessingStep enum from `src/types/index.ts`. -/
inductive Step where
  | branchCreation
  | implementation
  | changeDetection
  | commitPush
  | prCreation
  | completed
deriving DecidableEq, Repr

/-- the GitHub issue fields consumed by the embedded code paths. -/
structure Issue where
  id : Nat
  number : Nat
  title : String
  body : Option String
deriving DecidableEq, Repr

/-- ProcessingState from `src/types/index.ts`, minus the `lastUpdated`
timestamp (metadata that is stamped on save and never branched on). -/
structure PState where
  issueId : Nat
  branchName : String
  baseBranch : String
  currentStep : Step
  completedSteps : List Step
  retryCount : Nat
deriving DecidableEq, Repr

/-- a record in the state directory: parsable JSON or unparsable content. -/
inductive StoredRecord where
  | valid (s : PState)
  | corrupt
deriving DecidableEq, Repr

/-- the three prompts produced by `PromptBuilder`, abstracted to their kind
plus the data they are built from. -/
inductive Prompt where
  | impl (issueNumber : Nat)
  | commit
  | pr (baseBranch : String)
deriving DecidableEq, Repr

/-- one outcome of a `claudeExecutor.execute` call: normal return, a thrown
`RateLimitError`, or a thrown generic error. -/
inductive ExecRes where
  | ok
  | rateLimit (msg : String)
  | fail (msg : String)
deriving DecidableEq, Repr

/-- a collaborator invocation, recorded in the trace. -/
inductive Action where
  | switchToBranch (branchName baseBranch : String)
  | execute (p : Prompt)
  | checkForChanges
  | discardChanges
  | deleteBranch (branchName baseBranch : String)
deriving DecidableEq, Repr

/-- an error crossing a step boundary: `RateLimitError` or any other error. -/
inductive Err where
  | rateLimit (msg : String)
  | generic (msg : String)
deriving DecidableEq, Repr

/-- the world: the persisted state directory, the scripted outcomes of the
external collaborators, and the trace of collaborator invocations. -/
structure Env where
  store : Nat → Option StoredRecord
  gitScript : List Bool
  execScript : List ExecRes
  changeScript : List Bool
  trace : List Action

/-- records one collaborator invocation. -/
def pushTrace (a : Action) (env : Env) : Env :=
  { env with trace := env.trace ++ [a] }

/-- pops the next scripted outcome of a git branch operation
(`true` = success); an empty script defaults to success. -/
def popGit (env : Env) : Bool × Env :=
  match env.gitScript with
  | [] => (true, env)
  | b :: rest => (b, { env with gitScript := rest })

/-- pops the next scripted outcome of `claudeExecutor.execute`;
an empty script defaults to success. -/
def popExec (env : Env) : ExecRes × Env :=
  match env.execScript with
  | [] => (.ok, env)
  | r :: rest => (r, { env with execScript := rest })

/-- pops the next scripted answer of `checkForChanges`;
an empty script defaults to `true`. -/
def popChange (env : Env) : Bool × Env :=
  match env.changeScript with
  | [] => (true, env)
  | b :: rest => (b, { env with changeScript := rest })

/-! ## ProcessingStateManager (`src/services/processing-state-manager.ts`) -/

/-- `saveState`: overwrite-by-issueId (the file path is derived from the
state's own `issueId` field). -/
def saveState (s : PState) (env : Env) : Env :=
  { env with store := fun k => if k = s.issueId then some (.valid s) else env.store k }

/-- `loadState`: returns the parsed state, or `none` when the record is
absent or its content is unparsable (the JS catch returns `null`). -/
def loadState (env : Env) (issueId : Nat) : Option PState :=
  match env.store issueId with
  | some (.valid s) => some s
  | _ => none

/-- `updateStep`: load, set `currentStep`, append `completedStep` when given
and not already present, save.  A missing record is a no-op. -/
def updateStep (issueId : Nat) (currentStep : Step) (completedStep : Option Step)
    (env : Env) : Env :=
  match loadState env issueId with
  | none => env
  | some st =>
    let st := { st with currentStep := currentStep }
    let st :=
      match completedStep with
      | some c =>
        if c ∈ st.completedSteps then st
        else { st with completedSteps := st.completedSteps ++ [c] }
      | none => st
    saveState st env

/-- `createInitialState`: builds and persists a fresh BRANCH_CREATION state. -/
def createInitialState (issueId : Nat) (branchName baseBranch : String)
    (env : Env) : PState × Env :=
  let st : PState :=
    { issueId := issueId, branchName := branchName, baseBranch := baseBranch,
      currentStep := .branchCreation, completedSteps := [], retryCount := 0 }
  (st, saveState st env)

/-- `cleanupState`: removes the record for an issue; tolerates absence. -/
def cleanupState (issueId : Nat) (env : Env) : Env :=
  { env with store := fun k => if k = issueId then none else env.store k }

/-- `incrementRetryCount`: load, bump `retryCount`, save; no-op when the
record is absent or unparsable. -/
def incrementRetryCount (issueId : Nat) (env : Env) : Env :=
  match loadState env issueId with
  | none => env
  | some st => saveState { st with retryCount := st.retryCount + 1 } env

/-! ## GitRepository (`src/infrastructure`) -/

/-- a character kept by the JS regex replace `[^a-z0-9\s-]` → deleted. -/
def keepChar (c : Char) : Bool :=
  ('a' ≤ c && c ≤ 'z') || ('0' ≤ c && c ≤ '9') || c.isWhitespace || c = '-'

/-- the JS regex replace `\s+` → `'-'`: every maximal run of whitespace
becomes one hyphen.  `prevWs` tracks whether the previous character was
part of a whitespace run. -/
def collapseWs (prevWs : Bool) : List Char → List Char
  | [] => []
  | c :: cs =>
    if c.isWhitespace then
      if prevWs then collapseWs true cs else '-' :: collapseWs true cs
    else c :: collapseWs false cs

/-- `GitRepository.generateBranchName`:
`issue-NUMBER-` followed by the title lowercased, stripped to
`[a-z0-9\s-]`, whitespace runs collapsed to hyphens, cut to 50 characters.
(JS `toLowerCase` is Unicode-aware; the embedding uses ASCII lowercasing —
characters outside `[a-z0-9\s-]` are deleted by the following filter either
way.) -/
def generateBranchName (issue : Issue) : String :=
  let sanitizedTitle :=
    (collapseWs false ((issue.title.data.map Char.toLower).filter keepChar)).take 50
  "issue-" ++ toString issue.number ++ "-" ++ String.mk sanitizedTitle

/-- `switchToBranch`: the scripted git outcome decides between normal
return and a thrown generic error. -/
def switchToBranch (branchName baseBranch : String) (env : Env) :
    Except Err Unit × Env :=
  let env := pushTrace (.switchToBranch branchName baseBranch) env
  let (ok, env) := popGit env
  (if ok then .ok () else .error (.generic "Branch switching failed"), env)

/-- `checkForChanges`: local check, never throws (the JS catch returns
`false`); the scripted answer is returned as is. -/
def checkForChanges (env : Env) : Bool × Env :=
  let env := pushTrace .checkForChanges env
  popChange env

/-! ## Claude executor and RetryHandler -/

/-- one `claudeExecutor.execute` call: records the invocation and maps the
scripted outcome to normal return / `RateLimitError` / generic error. -/
def executeClaude (p : Prompt) (env : Env) : Except Err Unit × Env :=
  let env := pushTrace (.execute p) env
  let (r, env) := popExec env
  match r with
  | .ok => (.ok (), env)
  | .rateLimit m => (.error (.rateLimit m), env)
  | .fail m => (.error (.generic m), env)

/-- `RetryHandler.withRetry` over `claudeExecutor.execute` (fuel = attempts
left): a `RateLimitError` is rethrown immediately; a generic error is
retried until the attempts are exhausted, then the last error is thrown. -/
def withRetryExec (p : Prompt) : Nat → Env → Except Err Unit × Env
  | 0, env => (.error (.generic "no attempts"), env)
  | n + 1, env =>
    match executeClaude p env with
    | (.ok (), env) => (.ok (), env)
    | (.error (.rateLimit m), env) => (.error (.rateLimit m), env)
    | (.error (.generic m), env) =>
      if n = 0 then (.error (.generic m), env) else withRetryExec p n env

/-- the `maxRetries` argument the processor passes to `withRetry`. -/
def maxRetries : Nat := 3

/-! ## ResumableIssueProcessor (`src/services/resumable-issue-processor.ts`) -/

/-- outcome of one handler / of `processFromStep`: the (possibly thrown)
result, the mutated in-memory state, and the mutated world. -/
structure StepOut where
  res : Except Err Unit
  st : PState
  env : Env

/-- `cleanupOnError`: discard uncommitted changes, delete the branch
(both collaborator calls swallow their own errors). -/
def cleanupOnError (st : PState) (env : Env) : Env :=
  pushTrace (.deleteBranch st.branchName st.baseBranch) (pushTrace .discardChanges env)

/-- the error thrown when CHANGE_DETECTION finds no modifications. -/
def noChangesMsg : String := "No changes were made by ClaudeCode"

/-- `handleBranchCreation`: skipped when BRANCH_CREATION is already in
`completedSteps`; otherwise create the branch, persist the advance to
IMPLEMENTATION, and mirror it on the in-memory state. -/
def handleBranchCreation (issue : Issue) (st : PState) (env : Env) : StepOut :=
  if Step.branchCreation ∈ st.completedSteps then ⟨.ok (), st, env⟩
  else
    match switchToBranch st.branchName st.baseBranch env with
    | (.error e, env) => ⟨.error e, st, env⟩
    | (.ok (), env) =>
      let env := updateStep issue.id .implementation (some .branchCreation) env
      ⟨.ok (), { st with currentStep := .implementation,
                         completedSteps := st.completedSteps ++ [.branchCreation] }, env⟩

/-- `handleImplementation`: skipped when already completed; otherwise run
the implementation prompt under `withRetry` and persist the advance to
CHANGE_DETECTION. -/
def handleImplementation (issue : Issue) (st : PState) (env : Env) : StepOut :=
  if Step.implementation ∈ st.completedSteps then ⟨.ok (), st, env⟩
  else
    match withRetryExec (.impl issue.number) maxRetries env with
    | (.error e, env) => ⟨.error e, st, env⟩
    | (.ok (), env) =>
      let env := updateStep issue.id .changeDetection (some .implementation) env
      ⟨.ok (), { st with currentStep := .changeDetection,
                         completedSteps := st.completedSteps ++ [.implementation] }, env⟩

/-- `handleChangeDetection`: skipped when already completed; with no
working-tree changes it cleans up the branch and throws a generic error;
otherwise it persists the advance to COMMIT_PUSH. -/
def handleChangeDetection (issue : Issue) (st : PState) (env : Env) : StepOut :=
  if Step.changeDetection ∈ st.completedSteps then ⟨.ok (), st, env⟩
  else
    let (hasChanges, env) := checkForChanges env
    if hasChanges then
      let env := updateStep issue.id .commitPush (some .changeDetection) env
      ⟨.ok (), { st with currentStep := .commitPush,
                         completedSteps := st.completedSteps ++ [.changeDetection] }, env⟩
    else
      ⟨.error (.generic noChangesMsg), st, cleanupOnError st env⟩

/-- `handleCommitPush`: skipped when already completed; otherwise run the
commit prompt under `withRetry` and persist the advance to PR_CREATION. -/
def handleCommitPush (issue : Issue) (st : PState) (env : Env) : StepOut :=
  if Step.commitPush ∈ st.completedSteps then ⟨.ok (), st, env⟩
  else
    match withRetryExec .commit maxRetries env with
    | (.error e, env) => ⟨.error e, st, env⟩
    | (.ok (), env) =>
      let env := updateStep issue.id .prCreation (some .commitPush) env
      ⟨.ok (), { st with currentStep := .prCreation,
                         completedSteps := st.completedSteps ++ [.commitPush] }, env⟩

/-- `handlePRCreation`: skipped when already completed; otherwise run the
pull-request prompt under `withRetry` and persist the advance to
COMPLETED. -/
def handlePRCreation (issue : Issue) (st : PState) (env : Env) : StepOut :=
  if Step.prCreation ∈ st.completedSteps then ⟨.ok (), st, env⟩
  else
    match withRetryExec (.pr st.baseBranch) maxRetries env with
    | (.error e, env) => ⟨.error e, st, env⟩
    | (.ok (), env) =>
      let env := updateStep issue.id .completed (some .prCreation) env
      ⟨.ok (), { st with currentStep := .completed,
                         completedSteps := st.completedSteps ++ [.prCreation] }, env⟩

/-- the COMPLETED arm of the switch: mark the in-memory state COMPLETED and
persist `updateStep(COMPLETED, PR_CREATION)`. -/
def stageCompleted (issue : Issue) (st : PState) (env : Env) : StepOut :=
  let st := { st with currentStep := .completed }
  ⟨.ok (), st, updateStep issue.id .completed (some .prCreation) env⟩

/-- the PR_CREATION arm: guarded by `currentStep`, then fall through. -/
def stagePR (issue : Issue) (st : PState) (env : Env) : StepOut :=
  if st.currentStep = .prCreation then
    match handlePRCreation issue st env with
    | ⟨.error e, st, env⟩ => ⟨.error e, st, env⟩
    | ⟨.ok (), st, env⟩ => stageCompleted issue st env
  else stageCompleted issue st env

/-- the COMMIT_PUSH arm: guarded by `currentStep`, then fall through. -/
def stageCommit (issue : Issue) (st : PState) (env : Env) : StepOut :=
  if st.currentStep = .commitPush then
    match handleCommitPush issue st env with
    | ⟨.error e, st, env⟩ => ⟨.error e, st, env⟩
    | ⟨.ok (), st, env⟩ => stagePR issue st env
  else stagePR issue st env

/-- the CHANGE_DETECTION arm: guarded by `currentStep`, then fall through. -/
def stageChange (issue : Issue) (st : PState) (env : Env) : StepOut :=
  if st.currentStep = .changeDetection then
    match handleChangeDetection issue st env with
    | ⟨.error e, st, env⟩ => ⟨.error e, st, env⟩
    | ⟨.ok (), st, env⟩ => stageCommit issue st env
  else stageCommit issue st env

/-- the IMPLEMENTATION arm: guarded by `currentStep`, then fall through. -/
def stageImpl (issue : Issue) (st : PState) (env : Env) : StepOut :=
  if st.currentStep = .implementation then
    match handleImplementation issue st env with
    | ⟨.error e, st, env⟩ => ⟨.error e, st, env⟩
    | ⟨.ok (), st, env⟩ => stageChange issue st env
  else stageChange issue st env

/-- the BRANCH_CREATION arm (no guard in the source), then fall through. -/
def stageBranch (issue : Issue) (st : PState) (env : Env) : StepOut :=
  match handleBranchCreation issue st env with
  | ⟨.error e, st, env⟩ => ⟨.error e, st, env⟩
  | ⟨.ok (), st, env⟩ => stageImpl issue st env

/-- `processFromStep`: the `switch (state.currentStep)` with fallthrough —
jump to the arm of the current step, then fall through the remaining arms,
each guarded by `currentStep` (except the first). -/
def processFromStep (issue : Issue) (st : PState) (env : Env) : StepOut :=
  match st.currentStep with
  | .branchCreation => stageBranch issue st env
  | .implementation => stageImpl issue st env
  | .changeDetection => stageChange issue st env
  | .commitPush => stageCommit issue st env
  | .prCreation => stagePR issue st env
  | .completed => stageCompleted issue st env

/-- `ResumableProcessingResult` from `src/types/index.ts`
(`pullRequestUrl` is always `undefined` in the embedded paths). -/
structure RRes where
  success : Bool
  branchName : Option String
  error : Option String
  shouldResume : Bool
  currentState : Option PState
deriving DecidableEq, Repr

/-- loads the existing state for the issue or creates the initial one
(the opening lines of `processIssue`). -/
def loadOrCreate (issue : Issue) (baseBranch : String) (env : Env) :
    PState × Env :=
  match loadState env issue.id with
  | some s => (s, env)
  | none => createInitialState issue.id (generateBranchName issue) baseBranch env

/-- `ResumableIssueProcessor.processIssue`: load or create state, run
`processFromStep`; on success delete the state; on `RateLimitError`
increment the persisted retry count and return a resumable result carrying
the in-memory state; on any other error clean up branch and state. -/
def processIssue (issue : Issue) (baseBranch : String) (env : Env) :
    RRes × Env :=
  match processFromStep issue (loadOrCreate issue baseBranch env).1
      (loadOrCreate issue baseBranch env).2 with
  | ⟨.ok (), st, env⟩ =>
    ({ success := true, branchName := some st.branchName, error := none,
       shouldResume := false, currentState := none }, cleanupState issue.id env)
  | ⟨.error (.rateLimit m), st, env⟩ =>
    ({ success := false, branchName := some st.branchName, error := some m,
       shouldResume := true, currentState := some st },
     incrementRetryCount issue.id env)
  | ⟨.error (.generic m), st, env⟩ =>
    let env := cleanupOnError st env
    let env := cleanupState issue.id env
    ({ success := false, branchName := none, error := some m,
       shouldResume := false, currentState := none }, env)

/-- `ResumableIssueProcessor.resumeIssue`: absent state is a terminal
failure; otherwise delegate to `processIssue` with the persisted base
branch. -/
def resumeIssue (issueId : Nat) (issue : Issue) (env : Env) : RRes × Env :=
  match loadState env issueId with
  | none =>
    ({ success := false, branchName := none,
       error := some ("No processing state found for issue #" ++ toString issueId),
       shouldResume := false, currentState := none }, env)
  | some st => processIssue issue st.baseBranch env

/-! ## IssueQueue (`src/services/issue-queue.ts`) -/

/-- `IssueQueue.enqueue`: append each issue of the batch whose id is not
already present. -/
def enqueue (q : List Issue) (issues : List Issue) : List Issue :=
  issues.foldl
    (fun q issue => if q.any fun queued => queued.id = issue.id then q else q ++ [issue])
    q

/-- the ids held in the queue, in order. -/
def idsOf (q : List Issue) : List Nat := q.map Issue.id

/-! ## Invariants and trace predicates -/

/-- the five working steps in pipeline order (the order the spec sentence
of the claim quotes). -/
def stepSeq5 : List Step :=
  [.branchCreation, .implementation, .changeDetection, .commitPush, .prCreation]

/-- the full ordered step sequence including the terminal COMPLETED
marker. -/
def stepSeq6 : List Step := stepSeq5 ++ [.completed]

/-- the claimed invariant relative to the five-step sequence:
`completedSteps` is a strict ordered prefix of it, and `currentStep` is
the first step not in that prefix. -/
def strictInv5 (s : PState) : Prop :=
  s.completedSteps.length < 5 ∧
  s.completedSteps = stepSeq5.take s.completedSteps.length ∧
  stepSeq5.get? s.completedSteps.length = some s.currentStep

/-- the invariant that actually holds, relative to the six-step sequence
ending in COMPLETED: `completedSteps` is a strict ordered prefix of it and
`currentStep` is the first step of it not in that prefix (so COMPLETED is
never a member of `completedSteps`). -/
def strictInv6 (s : PState) : Prop :=
  s.completedSteps.length < 6 ∧
  s.completedSteps = stepSeq6.take s.completedSteps.length ∧
  stepSeq6.get? s.completedSteps.length = some s.currentStep

instance (s : PState) : Decidable (strictInv5 s) := by unfold strictInv5; infer_instance

instance (s : PState) : Decidable (strictInv6 s) := by unfold strictInv6; infer_instance

/-- every parsable record in the store sits under its own issue id and
satisfies the six-step invariant. -/
def GoodStore (env : Env) : Prop :=
  ∀ id s, loadState env id = some s → s.issueId = id ∧ strictInv6 s

/-- the position of a step in the full ordered sequence. -/
def stepIdx : Step → Nat
  | .branchCreation => 0
  | .implementation => 1
  | .changeDetection => 2
  | .commitPush => 3
  | .prCreation => 4
  | .completed => 5

/-- the in-memory advance a handler performs after its action succeeds:
move to the next step and append the just-completed one. -/
def advStep (sX nextX : Step) (st : PState) : PState :=
  { st with currentStep := nextX, completedSteps := st.completedSteps ++ [sX] }

/-- recognizes the `discardChanges` collaborator call. -/
def isDiscard : Action → Bool
  | .discardChanges => true
  | _ => false

/-- recognizes a `deleteBranch` collaborator call. -/
def isDelete : Action → Bool
  | .deleteBranch _ _ => true
  | _ => false

/-- actions the PR_CREATION arm may emit. -/
def APr (st : PState) (a : Action) : Prop := a = .execute (.pr st.baseBranch)

/-- actions the COMMIT_PUSH arm and everything after it may emit. -/
def ACommit (st : PState) (a : Action) : Prop :=
  a = .execute .commit ∨ APr st a

/-- actions the CHANGE_DETECTION arm and everything after it may emit. -/
def AChange (st : PState) (a : Action) : Prop :=
  a = .checkForChanges ∨ a = .discardChanges ∨
  a = .deleteBranch st.branchName st.baseBranch ∨ ACommit st a

/-- actions the IMPLEMENTATION arm and everything after it may emit. -/
def AImpl (issue : Issue) (st : PState) (a : Action) : Prop :=
  a = .execute (.impl issue.number) ∨ AChange st a

/-- actions the BRANCH_CREATION arm and everything after it may emit. -/
def ABranch (issue : Issue) (st : PState) (a : Action) : Prop :=
  a = .switchToBranch st.branchName st.baseBranch ∨ AImpl issue st a

/-- a character allowed in the sanitized branch-name suffix: lowercase
ASCII letter, digit, or hyphen. -/
def branchChar (c : Char) : Bool :=
  ('a' ≤ c && c ≤ 'z') || ('0' ≤ c && c ≤ '9') || c = '-'

/-- an ASCII-case-insensitive character comparison helper: substring test
over character lists.  `startsWithChars l pat` holds when `pat` is an
initial segment of `l`. -/
def startsWithChars : List Char → List Char → Bool
  | _, [] => true
  | [], _ :: _ => false
  | a :: as, b :: bs => a = b && startsWithChars as bs

/-- `containsChars pat l`: `pat` occurs contiguously somewhere in `l`. -/
def containsChars (pat : List Char) : List Char → Bool
  | [] => startsWithChars [] pat
  | a :: as => startsWithChars (a :: as) pat || containsChars pat as

/-- string containment (the reading of "reason contains X"). -/
def strContainsSub (s pat : String) : Bool := containsChars pat.data s.data

/-- ASCII lowercasing of a string, for the case-insensitive reading. -/
def strLower (s : String) : String := String.mk (s.data.map Char.toLower)

/-! ## Concrete fixtures used by counterexamples and witnesses -/

/-- the issue used by concrete scenarios (mirrors the jest fixtures). -/
def cIssue : Issue := ⟨123, 123, "Test Issue", some "Test issue body"⟩

/-- the branch name `generateBranchName` produces for `cIssue`. -/
def cBranch : String := "issue-123-test-issue"

/-- an empty store. -/
def emptyStore : Nat → Option StoredRecord := fun _ => none

/-- scenario B world: branch creation succeeds, the first implementation
attempt is throttled, every later agent call succeeds, changes exist. -/
def cEnvB : Env :=
  ⟨emptyStore, [true], [.rateLimit "Rate limit exceeded", .ok, .ok, .ok], [true], []⟩

/-- scenario C world: branch creation and implementation succeed, but the
working tree shows no modifications. -/
def cEnvC : Env := ⟨emptyStore, [true], [.ok], [false], []⟩

/-- a persisted state paused at COMMIT_PUSH with the first three steps
completed. -/
def cStCommit : PState :=
  ⟨123, cBranch, "main", .commitPush,
   [.branchCreation, .implementation, .changeDetection], 1⟩

/-- a world whose store holds `cStCommit` and whose agent calls succeed. -/
def cEnvResume : Env :=
  ⟨fun k => if k = 123 then some (.valid cStCommit) else none,
   [], [.ok, .ok], [true], []⟩

/-- a persisted state at PR_CREATION with the first four steps completed
(the largest state satisfying the five-step invariant). -/
def cStPr : PState :=
  ⟨123, cBranch, "main", .prCreation,
   [.branchCreation, .implementation, .changeDetection, .commitPush], 0⟩

/-- a world whose store holds `cStPr` and whose agent call succeeds. -/
def cEnvPr : Env :=
  ⟨fun k => if k = 123 then some (.valid cStPr) else none, [], [.ok], [], []⟩

/-- a store holding one unparsable record. -/
def cEnvCorrupt : Env :=
  ⟨fun k => if k = 7 then some .corrupt else none, [], [], [], []⟩

/-! # Theorems -/

/-! ## Basic lemmas about the state store -/

theorem trace_saveState (s : PState) (env : Env) :
    (saveState s env).trace = env.trace := rfl

theorem trace_cleanupState (id : Nat) (env : Env) :
    (cleanupState id env).trace = env.trace := rfl

theorem trace_updateStep (id : Nat) (c : Step) (o : Option Step) (env : Env) :
    (updateStep id c o env).trace = env.trace := by
  unfold updateStep
  cases loadState env id <;> rfl

theorem trace_incrementRetryCount (id : Nat) (env : Env) :
    (incrementRetryCount id env).trace = env.trace := by
  unfold incrementRetryCount
  cases loadState env id <;> rfl

theorem loadState_saveState_self (s : PState) (env : Env) :
    loadState (saveState s env) s.issueId = some s := by
  simp [loadState, saveState]

theorem loadState_saveState_of_ne (s : PState) (env : Env) (k : Nat)
    (h : k ≠ s.issueId) : loadState (saveState s env) k = loadState env k := by
  simp [loadState, saveState, h]

theorem loadState_of_store_eq {env env' : Env} (h : env'.store = env.store)
    (k : Nat) : loadState env' k = loadState env k := by
  simp [loadState, h]

/-! ## Basic lemmas about the scripted collaborators -/

theorem switchToBranch_env (n b : String) (env : Env) :
    (switchToBranch n b env).2.trace = env.trace ++ [.switchToBranch n b] ∧
    (switchToBranch n b env).2.store = env.store ∧
    ((switchToBranch n b env).1 = .ok () ∨
     (switchToBranch n b env).1 = .error (.generic "Branch switching failed")) := by
  unfold switchToBranch popGit pushTrace
  cases env.gitScript with
  | nil => exact ⟨rfl, rfl, Or.inl rfl⟩
  | cons x rest =>
    cases x
    · exact ⟨rfl, rfl, Or.inr rfl⟩
    · exact ⟨rfl, rfl, Or.inl rfl⟩

theorem checkForChanges_env (env : Env) :
    (checkForChanges env).2.trace = env.trace ++ [.checkForChanges] ∧
    (checkForChanges env).2.store = env.store := by
  unfold checkForChanges popChange pushTrace
  cases env.changeScript with
  | nil => exact ⟨rfl, rfl⟩
  | cons x rest => exact ⟨rfl, rfl⟩

theorem executeClaude_env (p : Prompt) (env : Env) :
    (executeClaude p env).2.trace = env.trace ++ [.execute p] ∧
    (executeClaude p env).2.store = env.store := by
  unfold executeClaude popExec pushTrace
  cases env.execScript with
  | nil => exact ⟨rfl, rfl⟩
  | cons x rest => cases x <;> exact ⟨rfl, rfl⟩

theorem withRetryExec_env (p : Prompt) :
    ∀ n env, ∃ d,
      (withRetryExec p n env).2.trace = env.trace ++ d ∧
      (∀ a ∈ d, a = Action.execute p) ∧
      (withRetryExec p n env).2.store = env.store := by
  intro n
  induction n with
  | zero => exact fun env => ⟨[], by simp [withRetryExec], by simp, rfl⟩
  | succ n ih =>
    intro env
    obtain ⟨ht, hs⟩ := executeClaude_env p env
    rcases he : executeClaude p env with ⟨r, env₁⟩
    rw [he] at ht hs
    dsimp only at ht hs
    rcases r with e | u
    · rcases e with m | m
      · refine ⟨[.execute p], ?_, by simp, ?_⟩
        · simp [withRetryExec, he, ht]
        · simp [withRetryExec, he, hs]
      · by_cases hn : n = 0
        · refine ⟨[.execute p], ?_, by simp, ?_⟩
          · simp [withRetryExec, he, hn, ht]
          · simp [withRetryExec, he, hn, hs]
        · obtain ⟨d, hd, hda, hds⟩ := ih env₁
          refine ⟨.execute p ::  d, ?_, ?_, ?_⟩
          · simp [withRetryExec, he, hn, hd, ht]
          · intro a ha
            rcases List.mem_cons.mp ha with rfl | ha'
            · rfl
            · exact hda a ha'
          · simp [withRetryExec, he, hn, hds, hs]
    · cases u
      refine ⟨[.execute p], ?_, by simp, ?_⟩
      · simp [withRetryExec, he, ht]
      · simp [withRetryExec, he, hs]

/-! ## Handler specification lemmas -/

theorem handleImplementation_spec (issue : Issue) (st : PState) (env : Env) :
    (handleImplementation issue st env).st.issueId = st.issueId ∧
    (handleImplementation issue st env).st.branchName = st.branchName ∧
    (handleImplementation issue st env).st.baseBranch = st.baseBranch ∧
    (handleImplementation issue st env).st.retryCount = st.retryCount ∧
    (∃ d, (handleImplementation issue st env).env.trace = env.trace ++ d ∧
       ∀ a ∈ d, a = Action.execute (.impl issue.number)) ∧
    (∀ e, (handleImplementation issue st env).res = .error e →
       (handleImplementation issue st env).st = st ∧
       (handleImplementation issue st env).env.store = env.store) ∧
    (∀ m, (handleImplementation issue st env).res = .error (.rateLimit m) →
       Step.implementation ∉ st.completedSteps) ∧
    ((handleImplementation issue st env).res = .ok () →
       (Step.implementation ∈ st.completedSteps ∧ (handleImplementation issue st env).st = st ∧
        (handleImplementation issue st env).env = env) ∨
       (Step.implementation ∉ st.completedSteps ∧
        (handleImplementation issue st env).st =
          advStep .implementation .changeDetection st ∧
        ∃ envm : Env, envm.store = env.store ∧
          (handleImplementation issue st env).env =
            updateStep issue.id .changeDetection (some .implementation) envm)) := by
  by_cases hmem : Step.implementation ∈ st.completedSteps
  · have he : handleImplementation issue st env = ⟨.ok (), st, env⟩ := by
      unfold handleImplementation; rw [if_pos hmem]
    rw [he]
    refine ⟨rfl, rfl, rfl, rfl, ⟨[], by simp, by simp⟩, ?_, ?_, ?_⟩
    · exact fun e h => nomatch h
    · exact fun m h => nomatch h
    · exact fun _ => Or.inl ⟨hmem, rfl, rfl⟩
  · obtain ⟨d, hdt, hda, hds⟩ := withRetryExec_env (.impl issue.number) maxRetries env
    rcases hw : withRetryExec (.impl issue.number) maxRetries env with ⟨r, env₁⟩
    rw [hw] at hdt hds
    dsimp only at hdt hds
    rcases r with e | u
    · have he : handleImplementation issue st env = ⟨.error e, st, env₁⟩ := by
        unfold handleImplementation; rw [if_neg hmem, hw]
      rw [he]
      refine ⟨rfl, rfl, rfl, rfl, ⟨d, hdt, hda⟩, ?_, ?_, ?_⟩
      · exact fun e' _ => ⟨rfl, hds⟩
      · exact fun m _ => hmem
      · exact fun h => nomatch h
    · cases u
      have he : handleImplementation issue st env =
          ⟨.ok (), advStep .implementation .changeDetection st,
           updateStep issue.id .changeDetection (some .implementation) env₁⟩ := by
        unfold handleImplementation; rw [if_neg hmem, hw]; rfl
      rw [he]
      refine ⟨rfl, rfl, rfl, rfl, ⟨d, ?_, hda⟩, ?_, ?_, ?_⟩
      · rw [trace_updateStep, hdt]
      · exact fun e h => nomatch h
      · exact fun m h => nomatch h
      · exact fun _ => Or.inr ⟨hmem, rfl, env₁, hds, rfl⟩

theorem handleCommitPush_spec (issue : Issue) (st : PState) (env : Env) :
    (handleCommitPush issue st env).st.issueId = st.issueId ∧
    (handleCommitPush issue st env).st.branchName = st.branchName ∧
    (handleCommitPush issue st env).st.baseBranch = st.baseBranch ∧
    (handleCommitPush issue st env).st.retryCount = st.retryCount ∧
    (∃ d, (handleCommitPush issue st env).env.trace = env.trace ++ d ∧
       ∀ a ∈ d, a = Action.execute .commit) ∧
    (∀ e, (handleCommitPush issue st env).res = .error e →
       (handleCommitPush issue st env).st = st ∧
       (handleCommitPush issue st env).env.store = env.store) ∧
    (∀ m, (handleCommitPush issue st env).res = .error (.rateLimit m) →
       Step.commitPush ∉ st.completedSteps) ∧
    ((handleCommitPush issue st env).res = .ok () →
       (Step.commitPush ∈ st.completedSteps ∧ (handleCommitPush issue st env).st = st ∧
        (handleCommitPush issue st env).env = env) ∨
       (Step.commitPush ∉ st.completedSteps ∧
        (handleCommitPush issue st env).st = advStep .commitPush .prCreation st ∧
        ∃ envm : Env, envm.store = env.store ∧
          (handleCommitPush issue st env).env =
            updateStep issue.id .prCreation (some .commitPush) envm)) := by
  by_cases hmem : Step.commitPush ∈ st.completedSteps
  · have he : handleCommitPush issue st env = ⟨.ok (), st, env⟩ := by
      unfold handleCommitPush; rw [if_pos hmem]
    rw [he]
    refine ⟨rfl, rfl, rfl, rfl, ⟨[], by simp, by simp⟩, ?_, ?_, ?_⟩
    · exact fun e h => nomatch h
    · exact fun m h => nomatch h
    · exact fun _ => Or.inl ⟨hmem, rfl, rfl⟩
  · obtain ⟨d, hdt, hda, hds⟩ := withRetryExec_env .commit maxRetries env
    rcases hw : withRetryExec .commit maxRetries env with ⟨r, env₁⟩
    rw [hw] at hdt hds
    dsimp only at hdt hds
    rcases r with e | u
    · have he : handleCommitPush issue st env = ⟨.error e, st, env₁⟩ := by
        unfold handleCommitPush; rw [if_neg hmem, hw]
      rw [he]
      refine ⟨rfl, rfl, rfl, rfl, ⟨d, hdt, hda⟩, ?_, ?_, ?_⟩
      · exact fun e' _ => ⟨rfl, hds⟩
      · exact fun m _ => hmem
      · exact fun h => nomatch h
    · cases u
      have he : handleCommitPush issue st env =
          ⟨.ok (), advStep .commitPush .prCreation st,
           updateStep issue.id .prCreation (some .commitPush) env₁⟩ := by
        unfold handleCommitPush; rw [if_neg hmem, hw]; rfl
      rw [he]
      refine ⟨rfl, rfl, rfl, rfl, ⟨d, ?_, hda⟩, ?_, ?_, ?_⟩
      · rw [trace_updateStep, hdt]
      · exact fun e h => nomatch h
      · exact fun m h => nomatch h
      · exact fun _ => Or.inr ⟨hmem, rfl, env₁, hds, rfl⟩

theorem handlePRCreation_spec (issue : Issue) (st : PState) (env : Env) :
    (handlePRCreation issue st env).st.issueId = st.issueId ∧
    (handlePRCreation issue st env).st.branchName = st.branchName ∧
    (handlePRCreation issue st env).st.baseBranch = st.baseBranch ∧
    (handlePRCreation issue st env).st.retryCount = st.retryCount ∧
    (∃ d, (handlePRCreation issue st env).env.trace = env.trace ++ d ∧
       ∀ a ∈ d, a = Action.execute (.pr st.baseBranch)) ∧
    (∀ e, (handlePRCreation issue st env).res = .error e →
       (handlePRCreation issue st env).st = st ∧
       (handlePRCreation issue st env).env.store = env.store) ∧
    (∀ m, (handlePRCreation issue st env).res = .error (.rateLimit m) →
       Step.prCreation ∉ st.completedSteps) ∧
    ((handlePRCreation issue st env).res = .ok () →
       (Step.prCreation ∈ st.completedSteps ∧ (handlePRCreation issue st env).st = st ∧
        (handlePRCreation issue st env).env = env) ∨
       (Step.prCreation ∉ st.completedSteps ∧
        (handlePRCreation issue st env).st = advStep .prCreation .completed st ∧
        ∃ envm : Env, envm.store = env.store ∧
          (handlePRCreation issue st env).env =
            updateStep issue.id .completed (some .prCreation) envm)) := by
  by_cases hmem : Step.prCreation ∈ st.completedSteps
  · have he : handlePRCreation issue st env = ⟨.ok (), st, env⟩ := by
      unfold handlePRCreation; rw [if_pos hmem]
    rw [he]
    refine ⟨rfl, rfl, rfl, rfl, ⟨[], by simp, by simp⟩, ?_, ?_, ?_⟩
    · exact fun e h => nomatch h
    · exact fun m h => nomatch h
    · exact fun _ => Or.inl ⟨hmem, rfl, rfl⟩
  · obtain ⟨d, hdt, hda, hds⟩ := withRetryExec_env (.pr st.baseBranch) maxRetries env
    rcases hw : withRetryExec (.pr st.baseBranch) maxRetries env with ⟨r, env₁⟩
    rw [hw] at hdt hds
    dsimp only at hdt hds
    rcases r with e | u
    · have he : handlePRCreation issue st env = ⟨.error e, st, env₁⟩ := by
        unfold handlePRCreation; rw [if_neg hmem, hw]
      rw [he]
      refine ⟨rfl, rfl, rfl, rfl, ⟨d, hdt, hda⟩, ?_, ?_, ?_⟩
      · exact fun e' _ => ⟨rfl, hds⟩
      · exact fun m _ => hmem
      · exact fun h => nomatch h
    · cases u
      have he : handlePRCreation issue st env =
          ⟨.ok (), advStep .prCreation .completed st,
           updateStep issue.id .completed (some .prCreation) env₁⟩ := by
        unfold handlePRCreation; rw [if_neg hmem, hw]; rfl
      rw [he]
      refine ⟨rfl, rfl, rfl, rfl, ⟨d, ?_, hda⟩, ?_, ?_, ?_⟩
      · rw [trace_updateStep, hdt]
      · exact fun e h => nomatch h
      · exact fun m h => nomatch h
      · exact fun _ => Or.inr ⟨hmem, rfl, env₁, hds, rfl⟩

theorem handleBranchCreation_spec (issue : Issue) (st : PState) (env : Env) :
    (handleBranchCreation issue st env).st.issueId = st.issueId ∧
    (handleBranchCreation issue st env).st.branchName = st.branchName ∧
    (handleBranchCreation issue st env).st.baseBranch = st.baseBranch ∧
    (handleBranchCreation issue st env).st.retryCount = st.retryCount ∧
    (∃ d, (handleBranchCreation issue st env).env.trace = env.trace ++ d ∧
       ∀ a ∈ d, a = Action.switchToBranch st.branchName st.baseBranch) ∧
    (∀ e, (handleBranchCreation issue st env).res = .error e →
       (handleBranchCreation issue st env).st = st ∧
       (handleBranchCreation issue st env).env.store = env.store) ∧
    (∀ m, (handleBranchCreation issue st env).res = .error (.rateLimit m) → False) ∧
    ((handleBranchCreation issue st env).res = .ok () →
       (Step.branchCreation ∈ st.completedSteps ∧ (handleBranchCreation issue st env).st = st ∧
        (handleBranchCreation issue st env).env = env) ∨
       (Step.branchCreation ∉ st.completedSteps ∧
        (handleBranchCreation issue st env).st =
          advStep .branchCreation .implementation st ∧
        ∃ envm : Env, envm.store = env.store ∧
          (handleBranchCreation issue st env).env =
            updateStep issue.id .implementation (some .branchCreation) envm)) := by
  by_cases hmem : Step.branchCreation ∈ st.completedSteps
  · have he : handleBranchCreation issue st env = ⟨.ok (), st, env⟩ := by
      unfold handleBranchCreation; rw [if_pos hmem]
    rw [he]
    refine ⟨rfl, rfl, rfl, rfl, ⟨[], by simp, by simp⟩, ?_, ?_, ?_⟩
    · exact fun e h => nomatch h
    · exact fun m h => nomatch h
    · exact fun _ => Or.inl ⟨hmem, rfl, rfl⟩
  · obtain ⟨hbt, hbs, hbr⟩ := switchToBranch_env st.branchName st.baseBranch env
    rcases hw : switchToBranch st.branchName st.baseBranch env with ⟨r, env₁⟩
    rw [hw] at hbt hbs hbr
    dsimp only at hbt hbs hbr
    rcases r with e | u
    · have he : handleBranchCreation issue st env = ⟨.error e, st, env₁⟩ := by
        unfold handleBranchCreation; rw [if_neg hmem, hw]
      rw [he]
      refine ⟨rfl, rfl, rfl, rfl, ⟨[.switchToBranch st.branchName st.baseBranch],
        hbt, by simp⟩, ?_, ?_, ?_⟩
      · exact fun e' _ => ⟨rfl, hbs⟩
      · intro m hm
        rcases hbr with hok | herr
        · exact nomatch hok
        · dsimp only at hm
          rw [herr] at hm
          exact nomatch hm
      · exact fun h => nomatch h
    · cases u
      have he : handleBranchCreation issue st env =
          ⟨.ok (), advStep .branchCreation .implementation st,
           updateStep issue.id .implementation (some .branchCreation) env₁⟩ := by
        unfold handleBranchCreation; rw [if_neg hmem, hw]; rfl
      rw [he]
      refine ⟨rfl, rfl, rfl, rfl,
        ⟨[.switchToBranch st.branchName st.baseBranch], ?_, by simp⟩, ?_, ?_, ?_⟩
      · rw [trace_updateStep, hbt]
      · exact fun e h => nomatch h
      · exact fun m h => nomatch h
      · exact fun _ => Or.inr ⟨hmem, rfl, env₁, hbs, rfl⟩

theorem handleChangeDetection_spec (issue : Issue) (st : PState) (env : Env) :
    (handleChangeDetection issue st env).st.issueId = st.issueId ∧
    (handleChangeDetection issue st env).st.branchName = st.branchName ∧
    (handleChangeDetection issue st env).st.baseBranch = st.baseBranch ∧
    (handleChangeDetection issue st env).st.retryCount = st.retryCount ∧
    (∃ d, (handleChangeDetection issue st env).env.trace = env.trace ++ d ∧
       (∀ a ∈ d, a = Action.checkForChanges ∨ a = Action.discardChanges ∨
          a = Action.deleteBranch st.branchName st.baseBranch) ∧
       d.countP isDiscard = d.countP isDelete ∧ d.countP isDiscard ≤ 1 ∧
       ((handleChangeDetection issue st env).res = .ok () →
          d.countP isDiscard = 0)) ∧
    (∀ e, (handleChangeDetection issue st env).res = .error e →
       (handleChangeDetection issue st env).st = st ∧
       (handleChangeDetection issue st env).env.store = env.store ∧
       e = .generic noChangesMsg) ∧
    ((handleChangeDetection issue st env).res = .ok () →
       (Step.changeDetection ∈ st.completedSteps ∧ (handleChangeDetection issue st env).st = st ∧
        (handleChangeDetection issue st env).env = env) ∨
       (Step.changeDetection ∉ st.completedSteps ∧
        (handleChangeDetection issue st env).st =
          advStep .changeDetection .commitPush st ∧
        ∃ envm : Env, envm.store = env.store ∧
          (handleChangeDetection issue st env).env =
            updateStep issue.id .commitPush (some .changeDetection) envm)) := by
  by_cases hmem : Step.changeDetection ∈ st.completedSteps
  · have he : handleChangeDetection issue st env = ⟨.ok (), st, env⟩ := by
      unfold handleChangeDetection; rw [if_pos hmem]
    rw [he]
    refine ⟨rfl, rfl, rfl, rfl,
      ⟨[], by simp, by simp, by simp, by simp, fun _ => rfl⟩, ?_, ?_⟩
    · exact fun e h => nomatch h
    · exact fun _ => Or.inl ⟨hmem, rfl, rfl⟩
  · obtain ⟨hct, hcs⟩ := checkForChanges_env env
    rcases hc : checkForChanges env with ⟨b, env₁⟩
    rw [hc] at hct hcs
    dsimp only at hct hcs
    cases b
    · have he : handleChangeDetection issue st env =
          ⟨.error (.generic noChangesMsg), st, cleanupOnError st env₁⟩ := by
        unfold handleChangeDetection; rw [if_neg hmem, hc]; rfl
      rw [he]
      refine ⟨rfl, rfl, rfl, rfl,
        ⟨[.checkForChanges, .discardChanges,
          .deleteBranch st.branchName st.baseBranch], ?_, by simp,
         by simp [isDiscard, isDelete], by simp [isDiscard], ?_⟩, ?_, ?_⟩
      · show (cleanupOnError st env₁).trace = env.trace ++ _
        simp [cleanupOnError, pushTrace, hct]
      · exact fun h => nomatch h
      · refine fun e' he' => ⟨rfl, hcs, ?_⟩
        dsimp only at he'
        exact (Except.error.inj he').symm
      · exact fun h => nomatch h
    · have he : handleChangeDetection issue st env =
          ⟨.ok (), advStep .changeDetection .commitPush st,
           updateStep issue.id .commitPush (some .changeDetection) env₁⟩ := by
        unfold handleChangeDetection; rw [if_neg hmem, hc]; rfl
      rw [he]
      refine ⟨rfl, rfl, rfl, rfl,
        ⟨[.checkForChanges], ?_, by simp, by simp [isDiscard, isDelete],
         by simp [isDiscard], fun _ => by simp [isDiscard]⟩, ?_, ?_⟩
      · rw [trace_updateStep, hct]
      · exact fun e h => nomatch h
      · exact fun _ => Or.inr ⟨hmem, rfl, env₁, hcs, rfl⟩

/-! ## Stage chain lemmas (trace shape and rate-limit exits) -/

theorem countA_zero {p : Action → Bool} {d : List Action}
    (h : ∀ a ∈ d, p a = false) : d.countP p = 0 := by
  induction d with
  | nil => rfl
  | cons a as ih =>
    have ha := h a (by simp)
    rw [List.countP_cons, ha]
    simpa using ih fun x hx => h x (by simp [hx])

theorem stageCompleted_spec (issue : Issue) (st : PState) (env : Env) :
    (stageCompleted issue st env).res = .ok () ∧
    (stageCompleted issue st env).st = { st with currentStep := .completed } ∧
    (stageCompleted issue st env).env.trace = env.trace ∧
    (stageCompleted issue st env).env =
      updateStep issue.id .completed (some .prCreation) env :=
  ⟨rfl, rfl, trace_updateStep issue.id .completed (some .prCreation) env, rfl⟩

theorem loadState_updateStep_adv (issueId : Nat) (next just : Step) (env : Env)
    (st : PState) (hsy : loadState env issueId = some st)
    (hid : st.issueId = issueId) (hmem : just ∉ st.completedSteps) :
    updateStep issueId next (some just) env =
      saveState (advStep just next st) env ∧
    loadState (updateStep issueId next (some just) env) issueId =
      some (advStep just next st) := by
  have h1 : updateStep issueId next (some just) env =
      saveState (advStep just next st) env := by
    unfold updateStep
    rw [hsy]
    dsimp only
    rw [if_neg hmem]
    rfl
  refine ⟨h1, ?_⟩
  rw [h1]
  have h2 : (advStep just next st).issueId = issueId := hid
  rw [← h2]
  exact loadState_saveState_self _ _

theorem adv_sync (issue : Issue) (st st₁ : PState) (env env₁ : Env)
    (sX nX : Step) (hid : st.issueId = issue.id)
    (hsy : loadState env issue.id = some st)
    (hok : (sX ∈ st.completedSteps ∧ st₁ = st ∧ env₁ = env) ∨
      (sX ∉ st.completedSteps ∧ st₁ = advStep sX nX st ∧
       ∃ envm : Env, envm.store = env.store ∧
         env₁ = updateStep issue.id nX (some sX) envm)) :
    loadState env₁ issue.id = some st₁ ∧ st₁.issueId = issue.id := by
  rcases hok with ⟨-, hst, henv⟩ | ⟨hmem, hst, envm, hsm, henv⟩
  · subst hst
    subst henv
    exact ⟨hsy, hid⟩
  · have hsym : loadState envm issue.id = some st := by
      rw [loadState_of_store_eq hsm, hsy]
    obtain ⟨-, h2⟩ := loadState_updateStep_adv issue.id nX sX envm st hsym hid hmem
    subst hst
    subst henv
    exact ⟨h2, hid⟩

theorem stagePR_spec (issue : Issue) (st : PState) (env : Env) :
    (∃ d, (stagePR issue st env).env.trace = env.trace ++ d ∧
       (∀ a ∈ d, APr st a) ∧
       d.countP isDiscard = 0 ∧ d.countP isDelete = 0) ∧
    (st.issueId = issue.id → loadState env issue.id = some st →
      ∀ m, (stagePR issue st env).res = .error (.rateLimit m) →
        loadState (stagePR issue st env).env issue.id =
          some (stagePR issue st env).st ∧
        (stagePR issue st env).st.issueId = issue.id ∧
        (stagePR issue st env).st.currentStep ∉
          (stagePR issue st env).st.completedSteps ∧
        (stagePR issue st env).st.currentStep ≠ .completed) := by
  by_cases hcur : st.currentStep = .prCreation
  · obtain ⟨hi, hb, hbb, hr, ⟨d, hdt, hda⟩, herr, hrl, hok⟩ :=
      handlePRCreation_spec issue st env
    rcases hh : handlePRCreation issue st env with ⟨r, st₁, env₁⟩
    rw [hh] at hi hb hbb hr hdt herr hrl hok
    dsimp only at hi hb hbb hr hdt herr hrl hok
    have hdz : d.countP isDiscard = 0 ∧ d.countP isDelete = 0 := by
      constructor <;> refine countA_zero fun a ha => ?_ <;>
        rw [hda a ha] <;> rfl
    rcases r with e | u
    · have he : stagePR issue st env = ⟨.error e, st₁, env₁⟩ := by
        unfold stagePR; rw [if_pos hcur, hh]
      rw [he]
      obtain ⟨hst, hsto⟩ := herr e rfl
      constructor
      · exact ⟨d, hdt, fun a ha => hda a ha, hdz.1, hdz.2⟩
      · intro hid hsy m hm
        dsimp only at hm
        have hnm := hrl m hm
        refine ⟨?_, ?_, ?_, ?_⟩
        · show loadState env₁ issue.id = some st₁
          rw [hst, loadState_of_store_eq hsto, hsy]
        · show st₁.issueId = issue.id
          rw [hst]; exact hid
        · show st₁.currentStep ∉ st₁.completedSteps
          rw [hst, hcur]; exact hnm
        · show st₁.currentStep ≠ Step.completed
          rw [hst, hcur]; exact fun h => nomatch h
    · cases u
      have he : stagePR issue st env = stageCompleted issue st₁ env₁ := by
        unfold stagePR; rw [if_pos hcur, hh]
      rw [he]
      obtain ⟨hcr, hcst, hct, hce⟩ := stageCompleted_spec issue st₁ env₁
      constructor
      · refine ⟨d, by rw [hct, hdt], fun a ha => ?_, hdz.1, hdz.2⟩
        show a = Action.execute (.pr st.baseBranch)
        exact hda a ha
      · intro hid hsy m hm
        rw [hcr] at hm
        exact nomatch hm
  · have he : stagePR issue st env = stageCompleted issue st env := by
      unfold stagePR; rw [if_neg hcur]
    rw [he]
    obtain ⟨hcr, hcst, hct, hce⟩ := stageCompleted_spec issue st env
    constructor
    · exact ⟨[], by simp [hct], by simp, rfl, rfl⟩
    · intro hid hsy m hm
      rw [hcr] at hm
      exact nomatch hm

theorem stageCommit_spec (issue : Issue) (st : PState) (env : Env) :
    (∃ d, (stageCommit issue st env).env.trace = env.trace ++ d ∧
       (∀ a ∈ d, ACommit st a) ∧
       d.countP isDiscard = 0 ∧ d.countP isDelete = 0) ∧
    (st.issueId = issue.id → loadState env issue.id = some st →
      ∀ m, (stageCommit issue st env).res = .error (.rateLimit m) →
        loadState (stageCommit issue st env).env issue.id =
          some (stageCommit issue st env).st ∧
        (stageCommit issue st env).st.issueId = issue.id ∧
        (stageCommit issue st env).st.currentStep ∉
          (stageCommit issue st env).st.completedSteps ∧
        (stageCommit issue st env).st.currentStep ≠ .completed) := by
  by_cases hcur : st.currentStep = .commitPush
  · obtain ⟨hi, hb, hbb, hr, ⟨d, hdt, hda⟩, herr, hrl, hok⟩ :=
      handleCommitPush_spec issue st env
    rcases hh : handleCommitPush issue st env with ⟨r, st₁, env₁⟩
    rw [hh] at hi hb hbb hr hdt herr hrl hok
    dsimp only at hi hb hbb hr hdt herr hrl hok
    have hdz : d.countP isDiscard = 0 ∧ d.countP isDelete = 0 := by
      constructor <;> refine countA_zero fun a ha => ?_ <;>
        rw [hda a ha] <;> rfl
    rcases r with e | u
    · have he : stageCommit issue st env = ⟨.error e, st₁, env₁⟩ := by
        unfold stageCommit; rw [if_pos hcur, hh]
      rw [he]
      obtain ⟨hst, hsto⟩ := herr e rfl
      constructor
      · refine ⟨d, hdt, fun a ha => ?_, hdz.1, hdz.2⟩
        exact Or.inl (hda a ha)
      · intro hid hsy m hm
        dsimp only at hm
        have hnm := hrl m hm
        refine ⟨?_, ?_, ?_, ?_⟩
        · show loadState env₁ issue.id = some st₁
          rw [hst, loadState_of_store_eq hsto, hsy]
        · show st₁.issueId = issue.id
          rw [hst]; exact hid
        · show st₁.currentStep ∉ st₁.completedSteps
          rw [hst, hcur]; exact hnm
        · show st₁.currentStep ≠ Step.completed
          rw [hst, hcur]; exact fun h => nomatch h
    · cases u
      have he : stageCommit issue st env = stagePR issue st₁ env₁ := by
        unfold stageCommit; rw [if_pos hcur, hh]
      obtain ⟨⟨d₂, hdt₂, hda₂, hz₂, hz₂'⟩, hrl₂⟩ := stagePR_spec issue st₁ env₁
      constructor
      · refine ⟨d ++ d₂, ?_, ?_, ?_, ?_⟩
        · rw [he, hdt₂, hdt, List.append_assoc]
        · intro a ha
          rcases List.mem_append.mp ha with h | h
          · exact Or.inl (hda a h)
          · right
            show a = Action.execute (.pr st.baseBranch)
            rw [← hbb]
            exact hda₂ a h
        · rw [List.countP_append, hdz.1, hz₂]
        · rw [List.countP_append, hdz.2, hz₂']
      · intro hid hsy m hm
        obtain ⟨hsy₁, hid₁⟩ :=
          adv_sync issue st st₁ env env₁ .commitPush .prCreation hid hsy (hok rfl)
        rw [he] at hm ⊢
        exact hrl₂ hid₁ hsy₁ m hm
  · have he : stageCommit issue st env = stagePR issue st env := by
      unfold stageCommit; rw [if_neg hcur]
    obtain ⟨⟨d₂, hdt₂, hda₂, hz₂, hz₂'⟩, hrl₂⟩ := stagePR_spec issue st env
    constructor
    · exact ⟨d₂, by rw [he, hdt₂], fun a ha => Or.inr (hda₂ a ha), hz₂, hz₂'⟩
    · intro hid hsy m hm
      rw [he] at hm ⊢
      exact hrl₂ hid hsy m hm

theorem stageChange_spec (issue : Issue) (st : PState) (env : Env) :
    (∃ d, (stageChange issue st env).env.trace = env.trace ++ d ∧
       (∀ a ∈ d, AChange st a) ∧
       d.countP isDiscard = d.countP isDelete ∧ d.countP isDiscard ≤ 1 ∧
       ((stageChange issue st env).res = .ok () → d.countP isDiscard = 0) ∧
       (∀ m, (stageChange issue st env).res = .error (.rateLimit m) →
          d.countP isDiscard = 0)) ∧
    (st.issueId = issue.id → loadState env issue.id = some st →
      ∀ m, (stageChange issue st env).res = .error (.rateLimit m) →
        loadState (stageChange issue st env).env issue.id =
          some (stageChange issue st env).st ∧
        (stageChange issue st env).st.issueId = issue.id ∧
        (stageChange issue st env).st.currentStep ∉
          (stageChange issue st env).st.completedSteps ∧
        (stageChange issue st env).st.currentStep ≠ .completed) := by
  by_cases hcur : st.currentStep = .changeDetection
  · obtain ⟨hi, hb, hbb, hr, ⟨d, hdt, hda, hcc, hc1, hcok⟩, herr, hok⟩ :=
      handleChangeDetection_spec issue st env
    rcases hh : handleChangeDetection issue st env with ⟨r, st₁, env₁⟩
    rw [hh] at hi hb hbb hr hdt hcok herr hok
    dsimp only at hi hb hbb hr hdt hcok herr hok
    rcases r with e | u
    · have he : stageChange issue st env = ⟨.error e, st₁, env₁⟩ := by
        unfold stageChange; rw [if_pos hcur, hh]
      obtain ⟨hst, hsto, hgen⟩ := herr e rfl
      rw [he]
      constructor
      · refine ⟨d, hdt, fun a ha => ?_, hcc, hc1, ?_, ?_⟩
        · rcases hda a ha with h | h | h
          · exact Or.inl h
          · exact Or.inr (Or.inl h)
          · exact Or.inr (Or.inr (Or.inl h))
        · exact fun h => nomatch h
        · intro m hm
          dsimp only at hm
          rw [hgen] at hm
          exact nomatch (Except.error.inj hm)
      · intro hid hsy m hm
        dsimp only at hm
        rw [hgen] at hm
        exact absurd (Except.error.inj hm) (fun h => nomatch h)
    · cases u
      have he : stageChange issue st env = stageCommit issue st₁ env₁ := by
        unfold stageChange; rw [if_pos hcur, hh]
      obtain ⟨⟨d₂, hdt₂, hda₂, hz₂, hz₂'⟩, hrl₂⟩ := stageCommit_spec issue st₁ env₁
      have hd0 := hcok rfl
      have hd0' : d.countP isDelete = 0 := by rw [← hcc, hd0]
      constructor
      · refine ⟨d ++ d₂, ?_, ?_, ?_, ?_, ?_, ?_⟩
        · rw [he, hdt₂, hdt, List.append_assoc]
        · intro a ha
          rcases List.mem_append.mp ha with h | h
          · rcases hda a h with h' | h' | h'
            · exact Or.inl h'
            · exact Or.inr (Or.inl h')
            · exact Or.inr (Or.inr (Or.inl h'))
          · refine Or.inr (Or.inr (Or.inr ?_))
            rcases hda₂ a h with h' | h'
            · exact Or.inl h'
            · right
              show a = Action.execute (.pr st.baseBranch)
              rw [← hbb]
              exact h'
        · rw [List.countP_append, List.countP_append, hd0, hd0', hz₂, hz₂']
        · rw [List.countP_append, hd0, hz₂]
          exact Nat.le_succ 0
        · intro _
          rw [List.countP_append, hd0, hz₂]
        · intro m _
          rw [List.countP_append, hd0, hz₂]
      · intro hid hsy m hm
        obtain ⟨hsy₁, hid₁⟩ :=
          adv_sync issue st st₁ env env₁ .changeDetection .commitPush hid hsy (hok rfl)
        rw [he] at hm ⊢
        exact hrl₂ hid₁ hsy₁ m hm
  · have he : stageChange issue st env = stageCommit issue st env := by
      unfold stageChange; rw [if_neg hcur]
    obtain ⟨⟨d₂, hdt₂, hda₂, hz₂, hz₂'⟩, hrl₂⟩ := stageCommit_spec issue st env
    constructor
    · refine ⟨d₂, by rw [he, hdt₂],
        fun a ha => Or.inr (Or.inr (Or.inr (hda₂ a ha))), ?_, ?_, ?_, ?_⟩
      · rw [hz₂, hz₂']
      · rw [hz₂]; exact Nat.le_succ 0
      · exact fun _ => hz₂
      · exact fun m _ => hz₂
    · intro hid hsy m hm
      rw [he] at hm ⊢
      exact hrl₂ hid hsy m hm

theorem stageImpl_spec (issue : Issue) (st : PState) (env : Env) :
    (∃ d, (stageImpl issue st env).env.trace = env.trace ++ d ∧
       (∀ a ∈ d, AImpl issue st a) ∧
       d.countP isDiscard = d.countP isDelete ∧ d.countP isDiscard ≤ 1 ∧
       ((stageImpl issue st env).res = .ok () → d.countP isDiscard = 0) ∧
       (∀ m, (stageImpl issue st env).res = .error (.rateLimit m) →
          d.countP isDiscard = 0)) ∧
    (st.issueId = issue.id → loadState env issue.id = some st →
      ∀ m, (stageImpl issue st env).res = .error (.rateLimit m) →
        loadState (stageImpl issue st env).env issue.id =
          some (stageImpl issue st env).st ∧
        (stageImpl issue st env).st.issueId = issue.id ∧
        (stageImpl issue st env).st.currentStep ∉
          (stageImpl issue st env).st.completedSteps ∧
        (stageImpl issue st env).st.currentStep ≠ .completed) := by
  by_cases hcur : st.currentStep = .implementation
  · obtain ⟨hi, hb, hbb, hr, ⟨d, hdt, hda⟩, herr, hrl, hok⟩ :=
      handleImplementation_spec issue st env
    rcases hh : handleImplementation issue st env with ⟨r, st₁, env₁⟩
    rw [hh] at hi hb hbb hr hdt herr hrl hok
    dsimp only at hi hb hbb hr hdt herr hrl hok
    have hdz : d.countP isDiscard = 0 ∧ d.countP isDelete = 0 := by
      constructor <;> refine countA_zero fun a ha => ?_ <;>
        rw [hda a ha] <;> rfl
    rcases r with e | u
    · have he : stageImpl issue st env = ⟨.error e, st₁, env₁⟩ := by
        unfold stageImpl; rw [if_pos hcur, hh]
      obtain ⟨hst, hsto⟩ := herr e rfl
      rw [he]
      constructor
      · refine ⟨d, hdt, fun a ha => Or.inl (hda a ha), ?_, ?_, ?_, ?_⟩
        · rw [hdz.1, hdz.2]
        · rw [hdz.1]; exact Nat.le_succ 0
        · exact fun _ => hdz.1
        · exact fun m _ => hdz.1
      · intro hid hsy m hm
        dsimp only at hm
        have hnm := hrl m hm
        refine ⟨?_, ?_, ?_, ?_⟩
        · show loadState env₁ issue.id = some st₁
          rw [hst, loadState_of_store_eq hsto, hsy]
        · show st₁.issueId = issue.id
          rw [hst]; exact hid
        · show st₁.currentStep ∉ st₁.completedSteps
          rw [hst, hcur]; exact hnm
        · show st₁.currentStep ≠ Step.completed
          rw [hst, hcur]; exact fun h => nomatch h
    · cases u
      have he : stageImpl issue st env = stageChange issue st₁ env₁ := by
        unfold stageImpl; rw [if_pos hcur, hh]
      obtain ⟨⟨d₂, hdt₂, hda₂, hcc₂, hc1₂, hok₂, hrlz₂⟩, hrl₂⟩ :=
        stageChange_spec issue st₁ env₁
      constructor
      · refine ⟨d ++ d₂, ?_, ?_, ?_, ?_, ?_, ?_⟩
        · rw [he, hdt₂, hdt, List.append_assoc]
        · intro a ha
          rcases List.mem_append.mp ha with h | h
          · exact Or.inl (hda a h)
          · right
            rcases hda₂ a h with h' | h' | h' | h'
            · exact Or.inl h'
            · exact Or.inr (Or.inl h')
            · refine Or.inr (Or.inr (Or.inl ?_))
              rw [← hb, ← hbb]
              exact h'
            · refine Or.inr (Or.inr (Or.inr ?_))
              rcases h' with h'' | h''
              · exact Or.inl h''
              · right
                show a = Action.execute (.pr st.baseBranch)
                rw [← hbb]
                exact h''
        · rw [List.countP_append, List.countP_append, hdz.1, hdz.2, hcc₂]
        · rw [List.countP_append, hdz.1]
          simpa using hc1₂
        · intro h
          rw [he] at h
          rw [List.countP_append, hdz.1, hok₂ h]
        · intro m hm
          rw [he] at hm
          rw [List.countP_append, hdz.1, hrlz₂ m hm]
      · intro hid hsy m hm
        obtain ⟨hsy₁, hid₁⟩ :=
          adv_sync issue st st₁ env env₁ .implementation .changeDetection hid hsy (hok rfl)
        rw [he] at hm ⊢
        exact hrl₂ hid₁ hsy₁ m hm
  · have he : stageImpl issue st env = stageChange issue st env := by
      unfold stageImpl; rw [if_neg hcur]
    obtain ⟨⟨d₂, hdt₂, hda₂, hcc₂, hc1₂, hok₂, hrlz₂⟩, hrl₂⟩ :=
      stageChange_spec issue st env
    constructor
    · refine ⟨d₂, by rw [he, hdt₂], fun a ha => Or.inr (hda₂ a ha),
        hcc₂, hc1₂, ?_, ?_⟩
      · intro h
        rw [he] at h
        exact hok₂ h
      · intro m hm
        rw [he] at hm
        exact hrlz₂ m hm
    · intro hid hsy m hm
      rw [he] at hm ⊢
      exact hrl₂ hid hsy m hm

theorem stageBranch_spec (issue : Issue) (st : PState) (env : Env) :
    (∃ d, (stageBranch issue st env).env.trace = env.trace ++ d ∧
       (∀ a ∈ d, ABranch issue st a) ∧
       d.countP isDiscard = d.countP isDelete ∧ d.countP isDiscard ≤ 1 ∧
       ((stageBranch issue st env).res = .ok () → d.countP isDiscard = 0) ∧
       (∀ m, (stageBranch issue st env).res = .error (.rateLimit m) →
          d.countP isDiscard = 0)) ∧
    (st.issueId = issue.id → loadState env issue.id = some st →
      ∀ m, (stageBranch issue st env).res = .error (.rateLimit m) →
        loadState (stageBranch issue st env).env issue.id =
          some (stageBranch issue st env).st ∧
        (stageBranch issue st env).st.issueId = issue.id ∧
        (stageBranch issue st env).st.currentStep ∉
          (stageBranch issue st env).st.completedSteps ∧
        (stageBranch issue st env).st.currentStep ≠ .completed) := by
  obtain ⟨hi, hb, hbb, hr, ⟨d, hdt, hda⟩, herr, hrl, hok⟩ :=
    handleBranchCreation_spec issue st env
  rcases hh : handleBranchCreation issue st env with ⟨r, st₁, env₁⟩
  rw [hh] at hi hb hbb hr hdt herr hrl hok
  dsimp only at hi hb hbb hr hdt herr hrl hok
  have hdz : d.countP isDiscard = 0 ∧ d.countP isDelete = 0 := by
    constructor <;> refine countA_zero fun a ha => ?_ <;>
      rw [hda a ha] <;> rfl
  rcases r with e | u
  · have he : stageBranch issue st env = ⟨.error e, st₁, env₁⟩ := by
      unfold stageBranch; rw [hh]
    rw [he]
    constructor
    · refine ⟨d, hdt, fun a ha => Or.inl (hda a ha), ?_, ?_, ?_, ?_⟩
      · rw [hdz.1, hdz.2]
      · rw [hdz.1]; exact Nat.le_succ 0
      · exact fun _ => hdz.1
      · exact fun m _ => hdz.1
    · intro hid hsy m hm
      dsimp only at hm
      exact absurd hm (fun h => hrl m h)
  · cases u
    have he : stageBranch issue st env = stageImpl issue st₁ env₁ := by
      unfold stageBranch; rw [hh]
    obtain ⟨⟨d₂, hdt₂, hda₂, hcc₂, hc1₂, hok₂, hrlz₂⟩, hrl₂⟩ :=
      stageImpl_spec issue st₁ env₁
    constructor
    · refine ⟨d ++ d₂, ?_, ?_, ?_, ?_, ?_, ?_⟩
      · rw [he, hdt₂, hdt, List.append_assoc]
      · intro a ha
        rcases List.mem_append.mp ha with h | h
        · exact Or.inl (hda a h)
        · right
          rcases hda₂ a h with h' | h'
          · exact Or.inl h'
          · right
            rcases h' with h'' | h'' | h'' | h''
            · exact Or.inl h''
            · exact Or.inr (Or.inl h'')
            · refine Or.inr (Or.inr (Or.inl ?_))
              rw [← hb, ← hbb]
              exact h''
            · refine Or.inr (Or.inr (Or.inr ?_))
              rcases h'' with h₃ | h₃
              · exact Or.inl h₃
              · right
                show a = Action.execute (.pr st.baseBranch)
                rw [← hbb]
                exact h₃
      · rw [List.countP_append, List.countP_append, hdz.1, hdz.2, hcc₂]
      · rw [List.countP_append, hdz.1]
        simpa using hc1₂
      · intro h
        rw [he] at h
        rw [List.countP_append, hdz.1, hok₂ h]
      · intro m hm
        rw [he] at hm
        rw [List.countP_append, hdz.1, hrlz₂ m hm]
    · intro hid hsy m hm
      obtain ⟨hsy₁, hid₁⟩ :=
        adv_sync issue st st₁ env env₁ .branchCreation .implementation hid hsy (hok rfl)
      rw [he] at hm ⊢
      exact hrl₂ hid₁ hsy₁ m hm

theorem processFromStep_eq_commit (issue : Issue) (st : PState) (env : Env)
    (h : st.currentStep = .commitPush) :
    processFromStep issue st env = stageCommit issue st env := by
  unfold processFromStep; rw [h]

theorem processFromStep_spec (issue : Issue) (st : PState) (env : Env) :
    (∃ d, (processFromStep issue st env).env.trace = env.trace ++ d ∧
       d.countP isDiscard = d.countP isDelete ∧ d.countP isDiscard ≤ 1 ∧
       ((processFromStep issue st env).res = .ok () → d.countP isDiscard = 0) ∧
       (∀ m, (processFromStep issue st env).res = .error (.rateLimit m) →
          d.countP isDiscard = 0)) ∧
    (st.issueId = issue.id → loadState env issue.id = some st →
      ∀ m, (processFromStep issue st env).res = .error (.rateLimit m) →
        loadState (processFromStep issue st env).env issue.id =
          some (processFromStep issue st env).st ∧
        (processFromStep issue st env).st.issueId = issue.id ∧
        (processFromStep issue st env).st.currentStep ∉
          (processFromStep issue st env).st.completedSteps ∧
        (processFromStep issue st env).st.currentStep ≠ .completed) := by
  cases hcur : st.currentStep
  case branchCreation =>
    have he : processFromStep issue st env = stageBranch issue st env := by
      unfold processFromStep; rw [hcur]
    obtain ⟨⟨d, hdt, -, hcc, hc1, hok, hrlz⟩, hrl⟩ := stageBranch_spec issue st env
    rw [he]
    exact ⟨⟨d, hdt, hcc, hc1, hok, hrlz⟩, hrl⟩
  case implementation =>
    have he : processFromStep issue st env = stageImpl issue st env := by
      unfold processFromStep; rw [hcur]
    obtain ⟨⟨d, hdt, -, hcc, hc1, hok, hrlz⟩, hrl⟩ := stageImpl_spec issue st env
    rw [he]
    exact ⟨⟨d, hdt, hcc, hc1, hok, hrlz⟩, hrl⟩
  case changeDetection =>
    have he : processFromStep issue st env = stageChange issue st env := by
      unfold processFromStep; rw [hcur]
    obtain ⟨⟨d, hdt, -, hcc, hc1, hok, hrlz⟩, hrl⟩ := stageChange_spec issue st env
    rw [he]
    exact ⟨⟨d, hdt, hcc, hc1, hok, hrlz⟩, hrl⟩
  case commitPush =>
    have he : processFromStep issue st env = stageCommit issue st env := by
      unfold processFromStep; rw [hcur]
    obtain ⟨⟨d, hdt, -, hz, hz'⟩, hrl⟩ := stageCommit_spec issue st env
    rw [he]
    exact ⟨⟨d, hdt, by rw [hz, hz'], by rw [hz]; exact Nat.le_succ 0,
      fun _ => hz, fun m _ => hz⟩, hrl⟩
  case prCreation =>
    have he : processFromStep issue st env = stagePR issue st env := by
      unfold processFromStep; rw [hcur]
    obtain ⟨⟨d, hdt, -, hz, hz'⟩, hrl⟩ := stagePR_spec issue st env
    rw [he]
    exact ⟨⟨d, hdt, by rw [hz, hz'], by rw [hz]; exact Nat.le_succ 0,
      fun _ => hz, fun m _ => hz⟩, hrl⟩
  case completed =>
    have he : processFromStep issue st env = stageCompleted issue st env := by
      unfold processFromStep; rw [hcur]
    obtain ⟨hcr, -, hct, -⟩ := stageCompleted_spec issue st env
    rw [he]
    refine ⟨⟨[], by simp [hct], rfl, by simp, fun _ => rfl, fun m _ => rfl⟩, ?_⟩
    intro hid hsy m hm
    rw [hcr] at hm
    exact nomatch hm

theorem all_of_countA_zero {p : Action → Bool} {d : List Action}
    (h : d.countP p = 0) : ∀ a ∈ d, p a = false := by
  intro x hx
  cases hpx : p x
  · rfl
  · exfalso
    have hpos : 0 < d.countP p := List.countP_pos_iff.mpr ⟨x, hx, hpx⟩
    omega

theorem loadOrCreate_spec (issue : Issue) (base : String) (env : Env)
    (hid : ∀ s, loadState env issue.id = some s → s.issueId = issue.id) :
    loadState (loadOrCreate issue base env).2 issue.id =
      some (loadOrCreate issue base env).1 ∧
    (loadOrCreate issue base env).1.issueId = issue.id ∧
    (loadOrCreate issue base env).2.trace = env.trace := by
  unfold loadOrCreate
  cases hl : loadState env issue.id with
  | some s => exact ⟨hl, hid s hl, rfl⟩
  | none =>
    refine ⟨?_, rfl, rfl⟩
    exact loadState_saveState_self _ env

theorem loadState_incrementRetryCount (id : Nat) (env : Env) (st : PState)
    (hsy : loadState env id = some st) (hid : st.issueId = id) :
    loadState (incrementRetryCount id env) id =
      some { st with retryCount := st.retryCount + 1 } := by
  unfold incrementRetryCount
  rw [hsy]
  dsimp only
  have h2 : ({ st with retryCount := st.retryCount + 1 } : PState).issueId = id := hid
  rw [← h2]
  exact loadState_saveState_self _ _

theorem store_cleanupState_self (id : Nat) (env : Env) :
    (cleanupState id env).store id = none := by
  simp [cleanupState]

theorem trace_cleanup_generic (issueId : Nat) (st : PState) (env : Env) :
    (cleanupState issueId (cleanupOnError st env)).trace =
      env.trace ++ [.discardChanges, .deleteBranch st.branchName st.baseBranch] := by
  simp [cleanupState, cleanupOnError, pushTrace]

/-! ## C1: resuming at COMMIT_PUSH never re-runs earlier steps -/

/-- C1: for a persisted state at COMMIT_PUSH with the first three steps
completed, `resumeIssue` (through `processIssue`) only ever invokes the
commit/push agent action and the PR-creation agent action (plus, on a
terminal failure, the cleanup calls `discardChanges`/`deleteBranch`);
the branch-creation collaborator action, the implementation agent action
and the change check are never invoked again, for every behavior of the
collaborators. -/
theorem resume_commit_push_skips_earlier (env : Env) (issue : Issue)
    (st : PState) (hsy : loadState env issue.id = some st)
    (hcur : st.currentStep = .commitPush)
    (_hcs : st.completedSteps =
      [.branchCreation, .implementation, .changeDetection]) :
    ∃ d, (resumeIssue issue.id issue env).2.trace = env.trace ++ d ∧
      ∀ a ∈ d, a = Action.execute .commit ∨
        (∃ b, a = Action.execute (.pr b)) ∨
        a = Action.discardChanges ∨
        (∃ n b, a = Action.deleteBranch n b) := by
  have hre : resumeIssue issue.id issue env = processIssue issue st.baseBranch env := by
    unfold resumeIssue; rw [hsy]
  have hlc : loadOrCreate issue st.baseBranch env = (st, env) := by
    unfold loadOrCreate; rw [hsy]
  obtain ⟨⟨d₁, hdt₁, hda₁, -, -⟩, -⟩ := stageCommit_spec issue st env
  have hpe := processFromStep_eq_commit issue st env hcur
  rcases hp : processFromStep issue st env with ⟨r, st', env'⟩
  rw [← hpe, hp] at hdt₁
  dsimp only at hdt₁
  have hall : ∀ a ∈ d₁, a = Action.execute .commit ∨
      (∃ b, a = Action.execute (.pr b)) ∨
      a = Action.discardChanges ∨ (∃ n b, a = Action.deleteBranch n b) := by
    intro a ha
    rcases hda₁ a ha with h | h
    · exact Or.inl h
    · exact Or.inr (Or.inl ⟨st.baseBranch, h⟩)
  rcases r with e | u
  · rcases e with m | m
    · have hpi : processIssue issue st.baseBranch env =
          ({ success := false, branchName := some st'.branchName,
             error := some m, shouldResume := true, currentState := some st' },
           incrementRetryCount issue.id env') := by
        unfold processIssue
        rw [hlc]
        dsimp only
        rw [hp]
      refine ⟨d₁, ?_, hall⟩
      rw [hre, hpi]
      dsimp only
      rw [trace_incrementRetryCount, hdt₁]
    · have hpi : processIssue issue st.baseBranch env =
          ({ success := false, branchName := none, error := some m,
             shouldResume := false, currentState := none },
           cleanupState issue.id (cleanupOnError st' env')) := by
        unfold processIssue
        rw [hlc]
        dsimp only
        rw [hp]
      refine ⟨d₁ ++ [.discardChanges, .deleteBranch st'.branchName st'.baseBranch],
        ?_, ?_⟩
      · rw [hre, hpi]
        dsimp only
        rw [trace_cleanup_generic, hdt₁, List.append_assoc]
      · intro a ha
        rcases List.mem_append.mp ha with h | h
        · exact hall a h
        · rcases List.mem_cons.mp h with rfl | h'
          · exact Or.inr (Or.inr (Or.inl rfl))
          · rcases List.mem_singleton.mp h' with rfl
            exact Or.inr (Or.inr (Or.inr ⟨st'.branchName, st'.baseBranch, rfl⟩))
  · cases u
    have hpi : processIssue issue st.baseBranch env =
        ({ success := true, branchName := some st'.branchName, error := none,
           shouldResume := false, currentState := none },
         cleanupState issue.id env') := by
      unfold processIssue
      rw [hlc]
      dsimp only
      rw [hp]
    refine ⟨d₁, ?_, hall⟩
    rw [hre, hpi]
    dsimp only
    rw [trace_cleanupState, hdt₁]

theorem resume_commit_push_skips_earlier_witness :
    ∃ d, (resumeIssue 123 cIssue cEnvResume).2.trace = cEnvResume.trace ++ d ∧
      ∀ a ∈ d, a = Action.execute .commit ∨
        (∃ b, a = Action.execute (.pr b)) ∨
        a = Action.discardChanges ∨
        (∃ n b, a = Action.deleteBranch n b) :=
  resume_commit_push_skips_earlier cEnvResume cIssue cStCommit rfl rfl rfl

/-! ## C2: a rate-limit signal persists the unfinished step and touches
nothing else -/

/-- C2: whenever a step's external action raises the rate-limit signal out
of `processIssue`'s step execution, `processIssue` returns a non-success
result with `shouldResume = true` carrying the in-memory state; the
persisted record still holds that state's current, unfinished step
(not in `completedSteps`, not COMPLETED) with its retry count incremented
by one; and neither `discardChanges` nor `deleteBranch` is invoked. -/
theorem rateLimit_persists_unfinished_step (env : Env) (issue : Issue)
    (base m : String)
    (hid : ∀ s, loadState env issue.id = some s → s.issueId = issue.id)
    (h : (processFromStep issue (loadOrCreate issue base env).1
           (loadOrCreate issue base env).2).res = .error (.rateLimit m)) :
    (processIssue issue base env).1.success = false ∧
    (processIssue issue base env).1.shouldResume = true ∧
    (processIssue issue base env).1.error = some m ∧
    (processIssue issue base env).1.currentState =
      some (processFromStep issue (loadOrCreate issue base env).1
             (loadOrCreate issue base env).2).st ∧
    (loadState (processIssue issue base env).2 issue.id =
      some { (processFromStep issue (loadOrCreate issue base env).1
               (loadOrCreate issue base env).2).st with
             retryCount := (processFromStep issue (loadOrCreate issue base env).1
               (loadOrCreate issue base env).2).st.retryCount + 1 }) ∧
    ((processFromStep issue (loadOrCreate issue base env).1
        (loadOrCreate issue base env).2).st.currentStep ∉
      (processFromStep issue (loadOrCreate issue base env).1
        (loadOrCreate issue base env).2).st.completedSteps) ∧
    (processFromStep issue (loadOrCreate issue base env).1
        (loadOrCreate issue base env).2).st.currentStep ≠ .completed ∧
    ∃ d, (processIssue issue base env).2.trace = env.trace ++ d ∧
      ∀ a ∈ d, isDiscard a = false ∧ isDelete a = false := by
  obtain ⟨hsy0, hid0, htr0⟩ := loadOrCreate_spec issue base env hid
  obtain ⟨⟨d, hdt, hcc, -, -, hrlz⟩, hrlsync⟩ :=
    processFromStep_spec issue (loadOrCreate issue base env).1
      (loadOrCreate issue base env).2
  obtain ⟨hsyf, hidf, hnmem, hncomp⟩ := hrlsync hid0 hsy0 m h
  have hd0 : d.countP isDiscard = 0 := hrlz m h
  have hd0' : d.countP isDelete = 0 := by rw [← hcc, hd0]
  rcases hp : processFromStep issue (loadOrCreate issue base env).1
      (loadOrCreate issue base env).2 with ⟨r, st', env₂⟩
  rw [hp] at hdt h hsyf hidf hnmem hncomp
  dsimp only at hdt h hsyf hidf hnmem hncomp ⊢
  subst h
  have hpi : processIssue issue base env =
      ({ success := false, branchName := some st'.branchName, error := some m,
         shouldResume := true, currentState := some st' },
       incrementRetryCount issue.id env₂) := by
    unfold processIssue
    rw [hp]
  rw [hpi]
  dsimp only
  refine ⟨rfl, rfl, rfl, rfl, ?_, hnmem, hncomp, ?_⟩
  · exact loadState_incrementRetryCount issue.id env₂ st' hsyf hidf
  · refine ⟨d, ?_, ?_⟩
    · rw [trace_incrementRetryCount, hdt, htr0]
    · intro a ha
      exact ⟨all_of_countA_zero hd0 a ha, all_of_countA_zero hd0' a ha⟩

theorem rateLimit_persists_unfinished_step_witness :
    (processIssue cIssue "main" cEnvB).1.shouldResume = true ∧
    loadState (processIssue cIssue "main" cEnvB).2 123 =
      some { issueId := 123, branchName := cBranch, baseBranch := "main",
             currentStep := .implementation, completedSteps := [.branchCreation],
             retryCount := 1 } := by
  have h := rateLimit_persists_unfinished_step cEnvB cIssue "main"
    "Rate limit exceeded"
    (by intro s hs; simp [loadState, cEnvB, emptyStore] at hs) rfl
  exact ⟨h.2.1, h.2.2.2.2.1.trans (by decide)⟩

theorem trace_loadOrCreate (issue : Issue) (base : String) (env : Env) :
    (loadOrCreate issue base env).2.trace = env.trace := by
  unfold loadOrCreate
  cases loadState env issue.id <;> rfl

/-! ## C4 (amended): terminal failures clean up once or twice -/

/-- C4 amended: every terminal (non-resumable) failure of `processIssue`
invokes `discardChanges` and `deleteBranch` equally often — at least once
and at most twice (twice exactly in the no-changes case, where the
CHANGE_DETECTION handler and the outer error handler both clean up) — and
leaves no persisted state for the issue. -/
theorem terminal_failure_cleanup (env : Env) (issue : Issue) (base : String)
    (h1 : (processIssue issue base env).1.success = false)
    (h2 : (processIssue issue base env).1.shouldResume = false) :
    loadState (processIssue issue base env).2 issue.id = none ∧
    ∃ d, (processIssue issue base env).2.trace = env.trace ++ d ∧
      d.countP isDiscard = d.countP isDelete ∧
      1 ≤ d.countP isDiscard ∧ d.countP isDiscard ≤ 2 := by
  obtain ⟨⟨d, hdt, hcc, hc1, -, -⟩, -⟩ :=
    processFromStep_spec issue (loadOrCreate issue base env).1
      (loadOrCreate issue base env).2
  rcases hp : processFromStep issue (loadOrCreate issue base env).1
      (loadOrCreate issue base env).2 with ⟨r, st', env₂⟩
  rw [hp] at hdt
  dsimp only at hdt
  rcases r with e | u
  · rcases e with m | m
    · have hpi : processIssue issue base env =
          ({ success := false, branchName := some st'.branchName, error := some m,
             shouldResume := true, currentState := some st' },
           incrementRetryCount issue.id env₂) := by
        unfold processIssue; rw [hp]
      rw [hpi] at h2
      exact absurd h2 (by simp)
    · have hpi : processIssue issue base env =
          ({ success := false, branchName := none, error := some m,
             shouldResume := false, currentState := none },
           cleanupState issue.id (cleanupOnError st' env₂)) := by
        unfold processIssue; rw [hp]
      rw [hpi]
      dsimp only
      constructor
      · simp [loadState, store_cleanupState_self]
      · refine ⟨d ++ [.discardChanges,
          .deleteBranch st'.branchName st'.baseBranch], ?_, ?_, ?_, ?_⟩
        · rw [trace_cleanup_generic, hdt, trace_loadOrCreate, List.append_assoc]
        · rw [List.countP_append, List.countP_append, hcc]
          simp [List.countP_cons, isDiscard, isDelete]
        · rw [List.countP_append]
          have : List.countP isDiscard [Action.discardChanges,
              Action.deleteBranch st'.branchName st'.baseBranch] = 1 := by
            simp [List.countP_cons, isDiscard]
          omega
        · rw [List.countP_append]
          have : List.countP isDiscard [Action.discardChanges,
              Action.deleteBranch st'.branchName st'.baseBranch] = 1 := by
            simp [List.countP_cons, isDiscard]
          omega
  · cases u
    have hpi : processIssue issue base env =
        ({ success := true, branchName := some st'.branchName, error := none,
           shouldResume := false, currentState := none },
         cleanupState issue.id env₂) := by
      unfold processIssue; rw [hp]
    rw [hpi] at h1
    exact absurd h1 (by simp)

theorem terminal_failure_cleanup_witness :
    loadState (processIssue cIssue "main" cEnvC).2 123 = none ∧
    ∃ d, (processIssue cIssue "main" cEnvC).2.trace = cEnvC.trace ++ d ∧
      d.countP isDiscard = d.countP isDelete ∧
      1 ≤ d.countP isDiscard ∧ d.countP isDiscard ≤ 2 :=
  terminal_failure_cleanup cEnvC cIssue "main" (by decide) (by decide)

/-! ## C6 (amended): the no-changes failure is terminal with full cleanup,
its reason containing "no changes" up to ASCII case -/

/-- C6 amended: a `processIssue` run that ends non-resumably with the
no-changes reason is a terminal failure; the reason contains `no changes`
ignoring ASCII case (the literal reason is `No changes were made by
ClaudeCode`); the uncommitted changes are discarded and the branch deleted
(at least one call each), and the persisted state is removed — the same
cleanup path as any other terminal failure. -/
theorem noChanges_terminal_cleanup (env : Env) (issue : Issue) (base : String)
    (h1 : (processIssue issue base env).1.error = some noChangesMsg)
    (h2 : (processIssue issue base env).1.shouldResume = false) :
    (processIssue issue base env).1.success = false ∧
    strContainsSub (strLower noChangesMsg) "no changes" = true ∧
    loadState (processIssue issue base env).2 issue.id = none ∧
    ∃ d, (processIssue issue base env).2.trace = env.trace ++ d ∧
      1 ≤ d.countP isDiscard ∧ 1 ≤ d.countP isDelete := by
  obtain ⟨⟨d, hdt, hcc, hc1, -, -⟩, -⟩ :=
    processFromStep_spec issue (loadOrCreate issue base env).1
      (loadOrCreate issue base env).2
  rcases hp : processFromStep issue (loadOrCreate issue base env).1
      (loadOrCreate issue base env).2 with ⟨r, st', env₂⟩
  rw [hp] at hdt
  dsimp only at hdt
  rcases r with e | u
  · rcases e with m | m
    · have hpi : processIssue issue base env =
          ({ success := false, branchName := some st'.branchName, error := some m,
             shouldResume := true, currentState := some st' },
           incrementRetryCount issue.id env₂) := by
        unfold processIssue; rw [hp]
      rw [hpi] at h2
      exact absurd h2 (by simp)
    · have hpi : processIssue issue base env =
          ({ success := false, branchName := none, error := some m,
             shouldResume := false, currentState := none },
           cleanupState issue.id (cleanupOnError st' env₂)) := by
        unfold processIssue; rw [hp]
      rw [hpi]
      dsimp only
      refine ⟨rfl, by decide, ?_, ?_⟩
      · simp [loadState, store_cleanupState_self]
      · refine ⟨d ++ [.discardChanges,
          .deleteBranch st'.branchName st'.baseBranch], ?_, ?_, ?_⟩
        · rw [trace_cleanup_generic, hdt, trace_loadOrCreate, List.append_assoc]
        · rw [List.countP_append]
          have : List.countP isDiscard [Action.discardChanges,
              Action.deleteBranch st'.branchName st'.baseBranch] = 1 := by
            simp [List.countP_cons, isDiscard]
          omega
        · rw [List.countP_append]
          have : List.countP isDelete [Action.discardChanges,
              Action.deleteBranch st'.branchName st'.baseBranch] = 1 := by
            simp [List.countP_cons, isDiscard, isDelete]
          omega
  · cases u
    have hpi : processIssue issue base env =
        ({ success := true, branchName := some st'.branchName, error := none,
           shouldResume := false, currentState := none },
         cleanupState issue.id env₂) := by
      unfold processIssue; rw [hp]
    rw [hpi] at h1
    exact absurd h1 (by simp)

theorem noChanges_terminal_cleanup_witness :
    (processIssue cIssue "main" cEnvC).1.success = false ∧
    strContainsSub (strLower noChangesMsg) "no changes" = true ∧
    loadState (processIssue cIssue "main" cEnvC).2 123 = none ∧
    ∃ d, (processIssue cIssue "main" cEnvC).2.trace = cEnvC.trace ++ d ∧
      1 ≤ d.countP isDiscard ∧ 1 ≤ d.countP isDelete :=
  noChanges_terminal_cleanup cEnvC cIssue "main" (by decide) (by decide)

/-! ## C8: corrupted records behave exactly like absent ones -/

/-- C8: `loadState` returns `none` both when no record exists and when the
stored record's content is unparsable; it never throws, so a corrupted
record behaves exactly like an absent one. -/
theorem loadState_absent_or_corrupt (env : Env) (issueId : Nat)
    (h : env.store issueId = none ∨ env.store issueId = some .corrupt) :
    loadState env issueId = none := by
  rcases h with h | h <;> simp [loadState, h]

theorem loadState_absent_or_corrupt_witness :
    (cEnvCorrupt.store 7 = some .corrupt ∧ loadState cEnvCorrupt 7 = none) ∧
    (cEnvCorrupt.store 9 = none ∧ loadState cEnvCorrupt 9 = none) :=
  ⟨⟨by decide, loadState_absent_or_corrupt cEnvCorrupt 7 (Or.inr (by decide))⟩,
   ⟨by decide, loadState_absent_or_corrupt cEnvCorrupt 9 (Or.inl (by decide))⟩⟩

/-! ## C9: updateStep / incrementRetryCount are no-ops without a record -/

/-- C9: for an issue id with no persisted record, `updateStep` and
`incrementRetryCount` leave the world untouched — no record is created,
no other issue's record is modified, and nothing is thrown. -/
theorem updateStep_incrementRetryCount_noop (env : Env) (issueId : Nat)
    (cur : Step) (comp : Option Step) (h : env.store issueId = none) :
    updateStep issueId cur comp env = env ∧ incrementRetryCount issueId env = env := by
  have hl : loadState env issueId = none := by simp [loadState, h]
  constructor <;> simp [updateStep, incrementRetryCount, hl]

theorem updateStep_incrementRetryCount_noop_witness :
    updateStep 9 .commitPush (some .changeDetection) cEnvCorrupt = cEnvCorrupt ∧
    incrementRetryCount 9 cEnvCorrupt = cEnvCorrupt :=
  updateStep_incrementRetryCount_noop cEnvCorrupt 9 .commitPush
    (some .changeDetection) (by decide)

/-! ## C7: the queue never duplicates an issue id -/

theorem enqueue_cons_mem (q : List Issue) (i : Issue) (rest : List Issue)
    (h : ∃ x ∈ q, x.id = i.id) : enqueue q (i :: rest) = enqueue q rest := by
  simp only [enqueue, List.foldl_cons]
  congr 1
  simp [h]

theorem enqueue_cons_new (q : List Issue) (i : Issue) (rest : List Issue)
    (h : ¬ ∃ x ∈ q, x.id = i.id) :
    enqueue q (i :: rest) = enqueue (q ++ [i]) rest := by
  simp only [enqueue, List.foldl_cons]
  congr 1
  simp [h]

theorem enqueue_structure (batch : List Issue) :
    ∀ q : List Issue, ∃ d,
      enqueue q batch = q ++ d ∧ d.Sublist batch ∧
      (∀ i ∈ d, i.id ∉ idsOf q) ∧
      ((idsOf q).Nodup → (idsOf (q ++ d)).Nodup) := by
  induction batch with
  | nil => exact fun q => ⟨[], by simp [enqueue], by simp, by simp, by simp⟩
  | cons i rest ih =>
    intro q
    by_cases hmem : ∃ x ∈ q, x.id = i.id
    · obtain ⟨d, hd, hsub, hnew, hnd⟩ := ih q
      exact ⟨d, by rw [enqueue_cons_mem q i rest hmem, hd], hsub.cons i, hnew, hnd⟩
    · obtain ⟨d, hd, hsub, hnew, hnd⟩ := ih (q ++ [i])
      have hidq : i.id ∉ idsOf q := by
        simp only [idsOf, List.mem_map]
        rintro ⟨x, hx, hxe⟩
        exact hmem ⟨x, hx, hxe⟩
      refine ⟨i :: d, ?_, hsub.cons₂ i, ?_, ?_⟩
      · rw [enqueue_cons_new q i rest hmem, hd]; simp
      · intro x hx
        rcases List.mem_cons.mp hx with rfl | hx'
        · exact hidq
        · intro hxq
          apply hnew x hx'
          simp only [idsOf, List.map_append]
          exact List.mem_append.mpr (Or.inl hxq)
      · intro hq
        have hq' : (idsOf (q ++ [i])).Nodup := by
          simp only [idsOf, List.map_append]
          refine List.Nodup.append hq (by simp) ?_
          intro a ha hb
          simp only [List.map_cons, List.map_nil, List.mem_singleton] at hb
          subst hb
          exact hidq ha
        have := hnd hq'
        simpa [idsOf, List.append_assoc] using this

/-- C7: `enqueue` never introduces a duplicate issue id, skips ids already
present, preserves arrival order of the distinct new ids (the queue grows
by a subsequence of the batch), and enqueueing two issues with the same id
into an empty queue yields queue size 1. -/
theorem enqueue_dedup_spec :
    (∀ q batch : List Issue, (idsOf q).Nodup → (idsOf (enqueue q batch)).Nodup) ∧
    (∀ q batch : List Issue, ∃ d,
       enqueue q batch = q ++ d ∧ d.Sublist batch ∧ ∀ i ∈ d, i.id ∉ idsOf q) ∧
    (∀ i j : Issue, i.id = j.id → (enqueue [] [i, j]).length = 1) := by
  refine ⟨?_, ?_, ?_⟩
  · intro q batch hq
    obtain ⟨d, hd, -, -, hnd⟩ := enqueue_structure batch q
    rw [hd]; exact hnd hq
  · intro q batch
    obtain ⟨d, hd, hsub, hnew, -⟩ := enqueue_structure batch q
    exact ⟨d, hd, hsub, hnew⟩
  · intro i j hij
    simp [enqueue, hij]

theorem enqueue_dedup_spec_witness :
    (idsOf (enqueue [] [cIssue, ⟨123, 124, "Other", none⟩, ⟨7, 8, "New", none⟩])).Nodup ∧
    (enqueue [] [cIssue, ⟨123, 124, "Other", none⟩]).length = 1 :=
  ⟨enqueue_dedup_spec.1 [] _ (by decide),
   enqueue_dedup_spec.2.2 cIssue ⟨123, 124, "Other", none⟩ (by decide)⟩

/-! ## C10: generateBranchName shape -/

theorem collapseWs_chars (l : List Char) (hl : ∀ c ∈ l, keepChar c = true) :
    ∀ b, ∀ c ∈ collapseWs b l, branchChar c = true := by
  induction l with
  | nil => intro b c hc; simp [collapseWs] at hc
  | cons a as ih =>
    intro b c hc
    have ha := hl a (by simp)
    have has : ∀ x ∈ as, keepChar x = true := fun x hx => hl x (by simp [hx])
    by_cases hw : a.isWhitespace
    · cases b with
      | true =>
        have he : collapseWs true (a :: as) = collapseWs true as := by
          simp [collapseWs, hw]
        rw [he] at hc
        exact ih has true c hc
      | false =>
        have he : collapseWs false (a :: as) = '-' :: collapseWs true as := by
          simp [collapseWs, hw]
        rw [he] at hc
        rcases List.mem_cons.mp hc with rfl | hc'
        · decide
        · exact ih has true c hc'
    · have he : collapseWs b (a :: as) = a :: collapseWs false as := by
        simp [collapseWs, hw]
      rw [he] at hc
      rcases List.mem_cons.mp hc with rfl | hc'
      · simp only [keepChar, Bool.or_eq_true] at ha
        simp only [branchChar, Bool.or_eq_true]
        rcases ha with ((h | h) | h) | h
        · exact Or.inl (Or.inl h)
        · exact Or.inl (Or.inr h)
        · exact absurd h hw
        · exact Or.inr h
      · exact ih has false c hc'

/-- C10: `generateBranchName` is a pure function of the issue's number and
title, of the form `issue-NUMBER-SUFFIX` where the suffix has at most 50
characters, all lowercase ASCII letters, digits, or hyphens. -/
theorem generateBranchName_spec :
    (∀ issue : Issue, ∃ suffix : List Char,
       generateBranchName issue =
         "issue-" ++ toString issue.number ++ "-" ++ String.mk suffix ∧
       suffix.length ≤ 50 ∧ ∀ c ∈ suffix, branchChar c = true) ∧
    (∀ i1 i2 : Issue, i1.number = i2.number → i1.title = i2.title →
       generateBranchName i1 = generateBranchName i2) := by
  constructor
  · intro issue
    refine ⟨(collapseWs false ((issue.title.data.map Char.toLower).filter keepChar)).take 50,
      rfl, ?_, ?_⟩
    · exact List.length_take_le 50 _
    · intro c hc
      exact collapseWs_chars _ (fun x hx => List.of_mem_filter hx) false c
        (List.mem_of_mem_take hc)
  · intro i1 i2 hn ht
    simp [generateBranchName, hn, ht]

theorem generateBranchName_spec_witness :
    generateBranchName cIssue = generateBranchName ⟨999, 123, "Test Issue", none⟩ ∧
    generateBranchName cIssue = "issue-123-test-issue" :=
  ⟨generateBranchName_spec.2 cIssue ⟨999, 123, "Test Issue", none⟩ rfl rfl,
   by decide⟩

/-! ## GoodStore preservation (the six-step invariant) -/

theorem goodStore_of_store_eq {env env' : Env} (h : env'.store = env.store)
    (hg : GoodStore env) : GoodStore env' := fun id s hl =>
  hg id s (by rwa [loadState_of_store_eq h] at hl)

theorem goodStore_saveState {env : Env} {s : PState} (hg : GoodStore env)
    (hs : strictInv6 s) : GoodStore (saveState s env) := by
  intro id s' h'
  by_cases hk : id = s.issueId
  · subst hk
    rw [loadState_saveState_self] at h'
    cases h'
    exact ⟨rfl, hs⟩
  · rw [loadState_saveState_of_ne s env id hk] at h'
    exact hg id s' h'

theorem goodStore_cleanupState {env : Env} (id : Nat) (hg : GoodStore env) :
    GoodStore (cleanupState id env) := by
  intro k s h
  by_cases hk : k = id
  · subst hk
    simp [loadState, cleanupState] at h
  · have : loadState (cleanupState id env) k = loadState env k := by
      simp [loadState, cleanupState, hk]
    rw [this] at h
    exact hg k s h

theorem goodStore_incrementRetryCount {env : Env} (id : Nat)
    (hg : GoodStore env) : GoodStore (incrementRetryCount id env) := by
  unfold incrementRetryCount
  cases hl : loadState env id with
  | none => exact hg
  | some st =>
    obtain ⟨hkey, hinv⟩ := hg id st hl
    exact goodStore_saveState hg hinv

theorem seq6_idx (n : Nat) (c : Step) (hn : n < 6)
    (h : stepSeq6.get? n = some c) : n = stepIdx c := by
  interval_cases n <;> cases c <;> simp_all [stepSeq6, stepSeq5, stepIdx]

theorem strictInv6_len (st : PState) (h : strictInv6 st) :
    st.completedSteps.length = stepIdx st.currentStep :=
  seq6_idx st.completedSteps.length st.currentStep h.1 h.2.2

theorem inv6_completed_concrete (st : PState) (h : strictInv6 st) :
    st.completedSteps = stepSeq6.take (stepIdx st.currentStep) := by
  rw [h.2.1, strictInv6_len st h]

theorem handler_good_generic (issue : Issue) (st : PState) (env : Env)
    (out : StepOut) (sX nX : Step) (hg : GoodStore env)
    (hsy : loadState env issue.id = some st)
    (herr : ∀ e, out.res = .error e → out.env.store = env.store)
    (hok : out.res = .ok () →
      (sX ∈ st.completedSteps ∧ out.st = st ∧ out.env = env) ∨
      (sX ∉ st.completedSteps ∧ out.st = advStep sX nX st ∧
       ∃ envm : Env, envm.store = env.store ∧
         out.env = updateStep issue.id nX (some sX) envm))
    (hadv : sX ∉ st.completedSteps → strictInv6 (advStep sX nX st)) :
    GoodStore out.env := by
  rcases hr : out.res with e | u
  · exact goodStore_of_store_eq (herr e hr) hg
  · cases u
    rcases hok hr with ⟨-, -, henv⟩ | ⟨hmem, -, envm, hsm, henv⟩
    · rw [henv]; exact hg
    · have hid : st.issueId = issue.id := (hg issue.id st hsy).1
      have hsym : loadState envm issue.id = some st := by
        rw [loadState_of_store_eq hsm, hsy]
      obtain ⟨h1, -⟩ := loadState_updateStep_adv issue.id nX sX envm st hsym hid hmem
      rw [henv, h1]
      exact goodStore_saveState (goodStore_of_store_eq hsm hg) (hadv hmem)

theorem handleBranchCreation_good (issue : Issue) (st : PState) (env : Env)
    (hg : GoodStore env) (hsy : loadState env issue.id = some st)
    (hcur : st.currentStep = .branchCreation) :
    GoodStore (handleBranchCreation issue st env).env := by
  obtain ⟨-, -, -, -, -, herr, -, hok⟩ := handleBranchCreation_spec issue st env
  have hinv := (hg issue.id st hsy).2
  have hcs := inv6_completed_concrete st hinv
  rw [hcur] at hcs
  simp only [stepIdx, stepSeq6, stepSeq5, List.take] at hcs
  refine handler_good_generic issue st env _ .branchCreation .implementation hg hsy
    (fun e he => (herr e he).2) hok ?_
  intro _
  refine ⟨?_, ?_, ?_⟩ <;> simp [advStep, hcs, stepSeq6, stepSeq5]

theorem handleImplementation_good (issue : Issue) (st : PState) (env : Env)
    (hg : GoodStore env) (hsy : loadState env issue.id = some st)
    (hcur : st.currentStep = .implementation) :
    GoodStore (handleImplementation issue st env).env := by
  obtain ⟨-, -, -, -, -, herr, -, hok⟩ := handleImplementation_spec issue st env
  have hinv := (hg issue.id st hsy).2
  have hcs := inv6_completed_concrete st hinv
  rw [hcur] at hcs
  simp only [stepIdx, stepSeq6, stepSeq5, List.take] at hcs
  refine handler_good_generic issue st env _ .implementation .changeDetection hg hsy
    (fun e he => (herr e he).2) hok ?_
  intro _
  refine ⟨?_, ?_, ?_⟩ <;> simp [advStep, hcs, stepSeq6, stepSeq5]

theorem handleChangeDetection_good (issue : Issue) (st : PState) (env : Env)
    (hg : GoodStore env) (hsy : loadState env issue.id = some st)
    (hcur : st.currentStep = .changeDetection) :
    GoodStore (handleChangeDetection issue st env).env := by
  obtain ⟨-, -, -, -, -, herr, hok⟩ := handleChangeDetection_spec issue st env
  have hinv := (hg issue.id st hsy).2
  have hcs := inv6_completed_concrete st hinv
  rw [hcur] at hcs
  simp only [stepIdx, stepSeq6, stepSeq5, List.take] at hcs
  refine handler_good_generic issue st env _ .changeDetection .commitPush hg hsy
    (fun e he => (herr e he).2.1) hok ?_
  intro _
  refine ⟨?_, ?_, ?_⟩ <;> simp [advStep, hcs, stepSeq6, stepSeq5]

theorem handleCommitPush_good (issue : Issue) (st : PState) (env : Env)
    (hg : GoodStore env) (hsy : loadState env issue.id = some st)
    (hcur : st.currentStep = .commitPush) :
    GoodStore (handleCommitPush issue st env).env := by
  obtain ⟨-, -, -, -, -, herr, -, hok⟩ := handleCommitPush_spec issue st env
  have hinv := (hg issue.id st hsy).2
  have hcs := inv6_completed_concrete st hinv
  rw [hcur] at hcs
  simp only [stepIdx, stepSeq6, stepSeq5, List.take] at hcs
  refine handler_good_generic issue st env _ .commitPush .prCreation hg hsy
    (fun e he => (herr e he).2) hok ?_
  intro _
  refine ⟨?_, ?_, ?_⟩ <;> simp [advStep, hcs, stepSeq6, stepSeq5]

theorem handlePRCreation_good (issue : Issue) (st : PState) (env : Env)
    (hg : GoodStore env) (hsy : loadState env issue.id = some st)
    (hcur : st.currentStep = .prCreation) :
    GoodStore (handlePRCreation issue st env).env := by
  obtain ⟨-, -, -, -, -, herr, -, hok⟩ := handlePRCreation_spec issue st env
  have hinv := (hg issue.id st hsy).2
  have hcs := inv6_completed_concrete st hinv
  rw [hcur] at hcs
  simp only [stepIdx, stepSeq6, stepSeq5, List.take] at hcs
  refine handler_good_generic issue st env _ .prCreation .completed hg hsy
    (fun e he => (herr e he).2) hok ?_
  intro _
  refine ⟨?_, ?_, ?_⟩ <;> simp [advStep, hcs, stepSeq6, stepSeq5]

theorem stageCompleted_good (issue : Issue) (st : PState) (env : Env)
    (hg : GoodStore env) (hsy : loadState env issue.id = some st)
    (hpr : Step.prCreation ∈ st.completedSteps ∨ st.currentStep = .completed) :
    GoodStore (stageCompleted issue st env).env := by
  have hinv := (hg issue.id st hsy).2
  have hcs := inv6_completed_concrete st hinv
  have hcc : st.completedSteps =
      [.branchCreation, .implementation, .changeDetection, .commitPush,
       .prCreation] := by
    rcases hpr with hmem | hcur
    · cases hc : st.currentStep <;> rw [hc] at hcs <;>
        simp only [stepIdx, stepSeq6, stepSeq5, List.take] at hcs <;>
        rw [hcs] at hmem ⊢ <;> first
          | rfl
          | exact absurd hmem (by decide)
    · rw [hcur] at hcs
      simpa [stepIdx, stepSeq6, stepSeq5, List.take] using hcs
  have hmem5 : Step.prCreation ∈ st.completedSteps := by rw [hcc]; decide
  have hupd : updateStep issue.id .completed (some .prCreation) env =
      saveState { st with currentStep := .completed } env := by
    unfold updateStep
    rw [hsy]
    dsimp only
    rw [if_pos hmem5]
  show GoodStore (updateStep issue.id .completed (some .prCreation) env)
  rw [hupd]
  refine goodStore_saveState hg ⟨?_, ?_, ?_⟩ <;>
    simp [hcc, stepSeq6, stepSeq5]

theorem stagePR_good (issue : Issue) (st : PState) (env : Env)
    (hg : GoodStore env) (hsy : loadState env issue.id = some st)
    (hcur : st.currentStep = .prCreation ∨ st.currentStep = .completed) :
    GoodStore (stagePR issue st env).env := by
  have hid : st.issueId = issue.id := (hg issue.id st hsy).1
  by_cases hc : st.currentStep = .prCreation
  · have hgood := handlePRCreation_good issue st env hg hsy hc
    obtain ⟨-, -, -, -, -, -, -, hok⟩ := handlePRCreation_spec issue st env
    rcases hh : handlePRCreation issue st env with ⟨r, st₁, env₁⟩
    rw [hh] at hgood hok
    dsimp only at hgood hok
    rcases r with e | u
    · have he : stagePR issue st env = ⟨.error e, st₁, env₁⟩ := by
        unfold stagePR; rw [if_pos hc, hh]
      rw [he]
      exact hgood
    · cases u
      have he : stagePR issue st env = stageCompleted issue st₁ env₁ := by
        unfold stagePR; rw [if_pos hc, hh]
      rw [he]
      obtain ⟨hsy₁, -⟩ := adv_sync issue st st₁ env env₁ .prCreation .completed
        hid hsy (hok rfl)
      refine stageCompleted_good issue st₁ env₁ hgood hsy₁ ?_
      rcases hok rfl with ⟨hmem, hst, -⟩ | ⟨-, hst, -⟩
      · rw [hst]; exact Or.inl hmem
      · rw [hst]; exact Or.inr rfl
  · have hcur' : st.currentStep = .completed := by
      rcases hcur with h | h
      · exact absurd h hc
      · exact h
    have he : stagePR issue st env = stageCompleted issue st env := by
      unfold stagePR; rw [if_neg hc]
    rw [he]
    exact stageCompleted_good issue st env hg hsy (Or.inr hcur')

theorem stageCommit_good (issue : Issue) (st : PState) (env : Env)
    (hg : GoodStore env) (hsy : loadState env issue.id = some st)
    (hcur : st.currentStep = .commitPush ∨ st.currentStep = .prCreation ∨
      st.currentStep = .completed) :
    GoodStore (stageCommit issue st env).env := by
  have hid : st.issueId = issue.id := (hg issue.id st hsy).1
  by_cases hc : st.currentStep = .commitPush
  · have hgood := handleCommitPush_good issue st env hg hsy hc
    obtain ⟨-, -, -, -, -, -, -, hok⟩ := handleCommitPush_spec issue st env
    have hnm : Step.commitPush ∉ st.completedSteps := by
      have hcs := inv6_completed_concrete st (hg issue.id st hsy).2
      rw [hc] at hcs
      simp only [stepIdx, stepSeq6, stepSeq5, List.take] at hcs
      rw [hcs]
      decide
    rcases hh : handleCommitPush issue st env with ⟨r, st₁, env₁⟩
    rw [hh] at hgood hok
    dsimp only at hgood hok
    rcases r with e | u
    · have he : stageCommit issue st env = ⟨.error e, st₁, env₁⟩ := by
        unfold stageCommit; rw [if_pos hc, hh]
      rw [he]
      exact hgood
    · cases u
      have he : stageCommit issue st env = stagePR issue st₁ env₁ := by
        unfold stageCommit; rw [if_pos hc, hh]
      rw [he]
      obtain ⟨hsy₁, -⟩ := adv_sync issue st st₁ env env₁ .commitPush .prCreation
        hid hsy (hok rfl)
      refine stagePR_good issue st₁ env₁ hgood hsy₁ ?_
      rcases hok rfl with ⟨hmem, -, -⟩ | ⟨-, hst, -⟩
      · exact absurd hmem hnm
      · rw [hst]; exact Or.inl rfl
  · have hcur' : st.currentStep = .prCreation ∨ st.currentStep = .completed := by
      rcases hcur with h | h | h
      · exact absurd h hc
      · exact Or.inl h
      · exact Or.inr h
    have he : stageCommit issue st env = stagePR issue st env := by
      unfold stageCommit; rw [if_neg hc]
    rw [he]
    exact stagePR_good issue st env hg hsy hcur'

theorem stageChange_good (issue : Issue) (st : PState) (env : Env)
    (hg : GoodStore env) (hsy : loadState env issue.id = some st)
    (hcur : st.currentStep = .changeDetection ∨ st.currentStep = .commitPush ∨
      st.currentStep = .prCreation ∨ st.currentStep = .completed) :
    GoodStore (stageChange issue st env).env := by
  have hid : st.issueId = issue.id := (hg issue.id st hsy).1
  by_cases hc : st.currentStep = .changeDetection
  · have hgood := handleChangeDetection_good issue st env hg hsy hc
    obtain ⟨-, -, -, -, -, -, hok⟩ := handleChangeDetection_spec issue st env
    have hnm : Step.changeDetection ∉ st.completedSteps := by
      have hcs := inv6_completed_concrete st (hg issue.id st hsy).2
      rw [hc] at hcs
      simp only [stepIdx, stepSeq6, stepSeq5, List.take] at hcs
      rw [hcs]
      decide
    rcases hh : handleChangeDetection issue st env with ⟨r, st₁, env₁⟩
    rw [hh] at hgood hok
    dsimp only at hgood hok
    rcases r with e | u
    · have he : stageChange issue st env = ⟨.error e, st₁, env₁⟩ := by
        unfold stageChange; rw [if_pos hc, hh]
      rw [he]
      exact hgood
    · cases u
      have he : stageChange issue st env = stageCommit issue st₁ env₁ := by
        unfold stageChange; rw [if_pos hc, hh]
      rw [he]
      obtain ⟨hsy₁, -⟩ := adv_sync issue st st₁ env env₁ .changeDetection
        .commitPush hid hsy (hok rfl)
      refine stageCommit_good issue st₁ env₁ hgood hsy₁ ?_
      rcases hok rfl with ⟨hmem, -, -⟩ | ⟨-, hst, -⟩
      · exact absurd hmem hnm
      · rw [hst]; exact Or.inl rfl
  · have hcur' : st.currentStep = .commitPush ∨ st.currentStep = .prCreation ∨
        st.currentStep = .completed := by
      rcases hcur with h | h
      · exact absurd h hc
      · exact h
    have he : stageChange issue st env = stageCommit issue st env := by
      unfold stageChange; rw [if_neg hc]
    rw [he]
    exact stageCommit_good issue st env hg hsy hcur'

theorem stageImpl_good (issue : Issue) (st : PState) (env : Env)
    (hg : GoodStore env) (hsy : loadState env issue.id = some st)
    (hcur : st.currentStep = .implementation ∨
      st.currentStep = .changeDetection ∨ st.currentStep = .commitPush ∨
      st.currentStep = .prCreation ∨ st.currentStep = .completed) :
    GoodStore (stageImpl issue st env).env := by
  have hid : st.issueId = issue.id := (hg issue.id st hsy).1
  by_cases hc : st.currentStep = .implementation
  · have hgood := handleImplementation_good issue st env hg hsy hc
    obtain ⟨-, -, -, -, -, -, -, hok⟩ := handleImplementation_spec issue st env
    have hnm : Step.implementation ∉ st.completedSteps := by
      have hcs := inv6_completed_concrete st (hg issue.id st hsy).2
      rw [hc] at hcs
      simp only [stepIdx, stepSeq6, stepSeq5, List.take] at hcs
      rw [hcs]
      decide
    rcases hh : handleImplementation issue st env with ⟨r, st₁, env₁⟩
    rw [hh] at hgood hok
    dsimp only at hgood hok
    rcases r with e | u
    · have he : stageImpl issue st env = ⟨.error e, st₁, env₁⟩ := by
        unfold stageImpl; rw [if_pos hc, hh]
      rw [he]
      exact hgood
    · cases u
      have he : stageImpl issue st env = stageChange issue st₁ env₁ := by
        unfold stageImpl; rw [if_pos hc, hh]
      rw [he]
      obtain ⟨hsy₁, -⟩ := adv_sync issue st st₁ env env₁ .implementation
        .changeDetection hid hsy (hok rfl)
      refine stageChange_good issue st₁ env₁ hgood hsy₁ ?_
      rcases hok rfl with ⟨hmem, -, -⟩ | ⟨-, hst, -⟩
      · exact absurd hmem hnm
      · rw [hst]; exact Or.inl rfl
  · have hcur' : st.currentStep = .changeDetection ∨
        st.currentStep = .commitPush ∨ st.currentStep = .prCreation ∨
        st.currentStep = .completed := by
      rcases hcur with h | h
      · exact absurd h hc
      · exact h
    have he : stageImpl issue st env = stageChange issue st env := by
      unfold stageImpl; rw [if_neg hc]
    rw [he]
    exact stageChange_good issue st env hg hsy hcur'

theorem stageBranch_good (issue : Issue) (st : PState) (env : Env)
    (hg : GoodStore env) (hsy : loadState env issue.id = some st)
    (hcur : st.currentStep = .branchCreation) :
    GoodStore (stageBranch issue st env).env := by
  have hid : st.issueId = issue.id := (hg issue.id st hsy).1
  have hgood := handleBranchCreation_good issue st env hg hsy hcur
  obtain ⟨-, -, -, -, -, -, -, hok⟩ := handleBranchCreation_spec issue st env
  have hnm : Step.branchCreation ∉ st.completedSteps := by
    have hcs := inv6_completed_concrete st (hg issue.id st hsy).2
    rw [hcur] at hcs
    simp only [stepIdx, stepSeq6, stepSeq5, List.take] at hcs
    rw [hcs]
    decide
  rcases hh : handleBranchCreation issue st env with ⟨r, st₁, env₁⟩
  rw [hh] at hgood hok
  dsimp only at hgood hok
  rcases r with e | u
  · have he : stageBranch issue st env = ⟨.error e, st₁, env₁⟩ := by
      unfold stageBranch; rw [hh]
    rw [he]
    exact hgood
  · cases u
    have he : stageBranch issue st env = stageImpl issue st₁ env₁ := by
      unfold stageBranch; rw [hh]
    rw [he]
    obtain ⟨hsy₁, -⟩ := adv_sync issue st st₁ env env₁ .branchCreation
      .implementation hid hsy (hok rfl)
    refine stageImpl_good issue st₁ env₁ hgood hsy₁ ?_
    rcases hok rfl with ⟨hmem, -, -⟩ | ⟨-, hst, -⟩
    · exact absurd hmem hnm
    · rw [hst]; exact Or.inl rfl

theorem processFromStep_good (issue : Issue) (st : PState) (env : Env)
    (hg : GoodStore env) (hsy : loadState env issue.id = some st) :
    GoodStore (processFromStep issue st env).env := by
  cases hcur : st.currentStep
  case branchCreation =>
    have he : processFromStep issue st env = stageBranch issue st env := by
      unfold processFromStep; rw [hcur]
    rw [he]
    exact stageBranch_good issue st env hg hsy hcur
  case implementation =>
    have he : processFromStep issue st env = stageImpl issue st env := by
      unfold processFromStep; rw [hcur]
    rw [he]
    exact stageImpl_good issue st env hg hsy (Or.inl hcur)
  case changeDetection =>
    have he : processFromStep issue st env = stageChange issue st env := by
      unfold processFromStep; rw [hcur]
    rw [he]
    exact stageChange_good issue st env hg hsy (Or.inl hcur)
  case commitPush =>
    have he : processFromStep issue st env = stageCommit issue st env := by
      unfold processFromStep; rw [hcur]
    rw [he]
    exact stageCommit_good issue st env hg hsy (Or.inl hcur)
  case prCreation =>
    have he : processFromStep issue st env = stagePR issue st env := by
      unfold processFromStep; rw [hcur]
    rw [he]
    exact stagePR_good issue st env hg hsy (Or.inl hcur)
  case completed =>
    have he : processFromStep issue st env = stageCompleted issue st env := by
      unfold processFromStep; rw [hcur]
    rw [he]
    exact stageCompleted_good issue st env hg hsy (Or.inr hcur)

theorem createInitialState_good (id : Nat) (b bb : String) (env : Env)
    (hg : GoodStore env) :
    strictInv6 (createInitialState id b bb env).1 ∧
    GoodStore (createInitialState id b bb env).2 := by
  have hinv : strictInv6 (createInitialState id b bb env).1 := by
    refine ⟨?_, rfl, rfl⟩
    show ([] : List Step).length < 6
    decide
  exact ⟨hinv, goodStore_saveState hg hinv⟩

theorem loadOrCreate_good (issue : Issue) (base : String) (env : Env)
    (hg : GoodStore env) :
    GoodStore (loadOrCreate issue base env).2 ∧
    loadState (loadOrCreate issue base env).2 issue.id =
      some (loadOrCreate issue base env).1 := by
  unfold loadOrCreate
  cases hl : loadState env issue.id with
  | some s => exact ⟨hg, hl⟩
  | none =>
    obtain ⟨hinv, hgood⟩ :=
      createInitialState_good issue.id (generateBranchName issue) base env hg
    exact ⟨hgood, loadState_saveState_self _ env⟩

theorem processIssue_good (issue : Issue) (base : String) (env : Env)
    (hg : GoodStore env) : GoodStore (processIssue issue base env).2 := by
  obtain ⟨hg1, hsy1⟩ := loadOrCreate_good issue base env hg
  have hg2 := processFromStep_good issue (loadOrCreate issue base env).1
    (loadOrCreate issue base env).2 hg1 hsy1
  rcases hp : processFromStep issue (loadOrCreate issue base env).1
      (loadOrCreate issue base env).2 with ⟨r, st', env₂⟩
  rw [hp] at hg2
  dsimp only at hg2
  rcases r with e | u
  · rcases e with m | m
    · have hpi : processIssue issue base env =
          ({ success := false, branchName := some st'.branchName, error := some m,
             shouldResume := true, currentState := some st' },
           incrementRetryCount issue.id env₂) := by
        unfold processIssue; rw [hp]
      rw [hpi]
      exact goodStore_incrementRetryCount issue.id hg2
    · have hpi : processIssue issue base env =
          ({ success := false, branchName := none, error := some m,
             shouldResume := false, currentState := none },
           cleanupState issue.id (cleanupOnError st' env₂)) := by
        unfold processIssue; rw [hp]
      rw [hpi]
      exact goodStore_cleanupState issue.id
        (goodStore_of_store_eq (rfl) hg2)
  · cases u
    have hpi : processIssue issue base env =
        ({ success := true, branchName := some st'.branchName, error := none,
           shouldResume := false, currentState := none },
         cleanupState issue.id env₂) := by
      unfold processIssue; rw [hp]
    rw [hpi]
    exact goodStore_cleanupState issue.id hg2

theorem resumeIssue_good (issueId : Nat) (issue : Issue) (env : Env)
    (hg : GoodStore env) : GoodStore (resumeIssue issueId issue env).2 := by
  unfold resumeIssue
  cases hl : loadState env issueId with
  | none => exact hg
  | some st => exact processIssue_good issue st.baseBranch env hg

/-- C3 amended: relative to the six-step ordered sequence ending in
COMPLETED, every reachable persisted state has `completedSteps` a strict
ordered prefix and `currentStep` the first step not in that prefix (so
COMPLETED is never a member of `completedSteps`); `createInitialState`
establishes it, and `incrementRetryCount`, every pipeline step handler
(run on the loaded state at its own step, invoking `updateStep` as the
pipeline does), `processFromStep`, `processIssue` and `resumeIssue` all
preserve it. -/
theorem strictInv6_preserved :
    (∀ (id : Nat) (b bb : String) (env : Env), GoodStore env →
       strictInv6 (createInitialState id b bb env).1 ∧
       GoodStore (createInitialState id b bb env).2) ∧
    (∀ (id : Nat) (env : Env), GoodStore env →
       GoodStore (incrementRetryCount id env)) ∧
    (∀ (issue : Issue) (st : PState) (env : Env), GoodStore env →
       loadState env issue.id = some st → st.currentStep = .branchCreation →
       GoodStore (handleBranchCreation issue st env).env) ∧
    (∀ (issue : Issue) (st : PState) (env : Env), GoodStore env →
       loadState env issue.id = some st → st.currentStep = .implementation →
       GoodStore (handleImplementation issue st env).env) ∧
    (∀ (issue : Issue) (st : PState) (env : Env), GoodStore env →
       loadState env issue.id = some st → st.currentStep = .changeDetection →
       GoodStore (handleChangeDetection issue st env).env) ∧
    (∀ (issue : Issue) (st : PState) (env : Env), GoodStore env →
       loadState env issue.id = some st → st.currentStep = .commitPush →
       GoodStore (handleCommitPush issue st env).env) ∧
    (∀ (issue : Issue) (st : PState) (env : Env), GoodStore env →
       loadState env issue.id = some st → st.currentStep = .prCreation →
       GoodStore (handlePRCreation issue st env).env) ∧
    (∀ (issue : Issue) (st : PState) (env : Env), GoodStore env →
       loadState env issue.id = some st →
       GoodStore (processFromStep issue st env).env) ∧
    (∀ (issue : Issue) (base : String) (env : Env), GoodStore env →
       GoodStore (processIssue issue base env).2) ∧
    (∀ (issueId : Nat) (issue : Issue) (env : Env), GoodStore env →
       GoodStore (resumeIssue issueId issue env).2) :=
  ⟨fun id b bb env hg => createInitialState_good id b bb env hg,
   fun id _env hg => goodStore_incrementRetryCount id hg,
   fun issue st env hg hsy hc => handleBranchCreation_good issue st env hg hsy hc,
   fun issue st env hg hsy hc => handleImplementation_good issue st env hg hsy hc,
   fun issue st env hg hsy hc => handleChangeDetection_good issue st env hg hsy hc,
   fun issue st env hg hsy hc => handleCommitPush_good issue st env hg hsy hc,
   fun issue st env hg hsy hc => handlePRCreation_good issue st env hg hsy hc,
   fun issue st env hg hsy => processFromStep_good issue st env hg hsy,
   fun issue base env hg => processIssue_good issue base env hg,
   fun issueId issue env hg => resumeIssue_good issueId issue env hg⟩

theorem strictInv6_preserved_witness :
    GoodStore cEnvResume ∧ GoodStore (processIssue cIssue "main" cEnvResume).2 := by
  have hg : GoodStore cEnvResume := by
    intro id s h
    by_cases hid : id = 123
    · subst hid
      simp only [loadState, cEnvResume] at h
      norm_num at h
      rw [← h]
      exact ⟨rfl, by decide⟩
    · simp [loadState, cEnvResume, hid] at h
  exact ⟨hg, strictInv6_preserved.2.2.2.2.2.2.2.2.1 cIssue "main" cEnvResume hg⟩

/-! ## C3 counterexample: the final transition leaves a persisted state
whose `completedSteps` is the whole five-step sequence -/

/-- C3 counterexample: `cStPr` satisfies the claimed five-step invariant,
but running the PR_CREATION handler on it persists a state whose
`completedSteps` is the entire five-step sequence — not a strict prefix —
so the handler does not preserve the invariant as claimed. -/
theorem handlePRCreation_breaks_strictInv5 :
    strictInv5 cStPr ∧
    loadState cEnvPr 123 = some cStPr ∧
    loadState (handlePRCreation cIssue cStPr cEnvPr).env 123 =
      some ⟨123, cBranch, "main", .completed,
            [.branchCreation, .implementation, .changeDetection, .commitPush,
             .prCreation], 0⟩ ∧
    ¬ strictInv5 ⟨123, cBranch, "main", .completed,
            [.branchCreation, .implementation, .changeDetection, .commitPush,
             .prCreation], 0⟩ := by
  decide

/-! ## C4 counterexample: the no-changes failure cleans up twice -/

/-- C4 counterexample: in the no-changes terminal failure the branch was
created, yet `discardChanges` and `deleteBranch` are each invoked twice
(once by the CHANGE_DETECTION handler, once by the outer error handler),
not exactly once. -/
theorem noChanges_cleanup_runs_twice :
    (processIssue cIssue "main" cEnvC).1.success = false ∧
    (processIssue cIssue "main" cEnvC).1.shouldResume = false ∧
    (processIssue cIssue "main" cEnvC).2.trace.countP
      (fun a => a = Action.switchToBranch cBranch "main") = 1 ∧
    (processIssue cIssue "main" cEnvC).2.trace.countP isDiscard = 2 ∧
    (processIssue cIssue "main" cEnvC).2.trace.countP isDelete = 2 ∧
    loadState (processIssue cIssue "main" cEnvC).2 123 = none := by
  decide

/-! ## C5: the returned in-memory state does not carry the bumped retry
count -/

/-- C5 counterexample: with IMPLEMENTATION throttled once, the first
`processIssue` call does return a resumable result at IMPLEMENTATION, but
the state carried by the result still has `retryCount = 0`; only the
persisted record has `retryCount = 1`. -/
theorem throttled_result_state_retryCount_zero :
    (processIssue cIssue "main" cEnvB).1.success = false ∧
    (processIssue cIssue "main" cEnvB).1.shouldResume = true ∧
    ((processIssue cIssue "main" cEnvB).1.currentState.map PState.currentStep) =
      some .implementation ∧
    ((processIssue cIssue "main" cEnvB).1.currentState.map PState.retryCount) =
      some 0 ∧
    ((processIssue cIssue "main" cEnvB).1.currentState.map PState.retryCount) ≠
      some 1 := by
  decide

/-- C5 amended: scenario B end to end — the first call returns NeedsResume
with `currentStep = IMPLEMENTATION` (in-memory `retryCount` still 0), the
persisted record has `retryCount = 1`; the `resumeIssue` call returns
Success and removes the record; the implementation action runs twice in
total and every other step action exactly once. -/
theorem scenarioB_throttle_then_resume :
    (processIssue cIssue "main" cEnvB).1.success = false ∧
    (processIssue cIssue "main" cEnvB).1.shouldResume = true ∧
    ((processIssue cIssue "main" cEnvB).1.currentState.map PState.currentStep) =
      some .implementation ∧
    ((processIssue cIssue "main" cEnvB).1.currentState.map PState.retryCount) =
      some 0 ∧
    loadState (processIssue cIssue "main" cEnvB).2 123 =
      some ⟨123, cBranch, "main", .implementation, [.branchCreation], 1⟩ ∧
    (resumeIssue 123 cIssue (processIssue cIssue "main" cEnvB).2).1.success = true ∧
    (resumeIssue 123 cIssue (processIssue cIssue "main" cEnvB).2).1.shouldResume = false ∧
    loadState (resumeIssue 123 cIssue (processIssue cIssue "main" cEnvB).2).2 123 = none ∧
    (resumeIssue 123 cIssue (processIssue cIssue "main" cEnvB).2).2.trace.countP
      (fun a => a = Action.execute (.impl 123)) = 2 ∧
    (resumeIssue 123 cIssue (processIssue cIssue "main" cEnvB).2).2.trace.countP
      (fun a => a = Action.execute .commit) = 1 ∧
    (resumeIssue 123 cIssue (processIssue cIssue "main" cEnvB).2).2.trace.countP
      (fun a => a = Action.execute (.pr "main")) = 1 ∧
    (resumeIssue 123 cIssue (processIssue cIssue "main" cEnvB).2).2.trace.countP
      (fun a => a = Action.switchToBranch cBranch "main") = 1 ∧
    (resumeIssue 123 cIssue (processIssue cIssue "main" cEnvB).2).2.trace.countP
      (fun a => a = Action.checkForChanges) = 1 := by
  decide

/-! ## C6 counterexample: the no-changes reason does not contain the
literal lowercase string -/

/-- C6 counterexample: the no-changes terminal failure reports the reason
`No changes were made by ClaudeCode`, which does not contain the literal
string `no changes` (the containment only holds ignoring case). -/
theorem noChanges_reason_case_mismatch :
    (processIssue cIssue "main" cEnvC).1.error = some noChangesMsg ∧
    (processIssue cIssue "main" cEnvC).1.shouldResume = false ∧
    strContainsSub noChangesMsg "no changes" = false ∧
    strContainsSub (strLower noChangesMsg) "no changes" = true := by
  decide

end Dispatcher
